import Mathlib

/-!
A shallow embedding of the coherent-reconstruction job controller
(the websocket module: `startStreamingJob`, `processJobAsync`, `handleAbort`,
`abortJob`, `resumeJob`, `getPriorDeltas`, `buildPriorDeltasSummary`,
`cleanupOldJobs`) and of the audit-logging service (`logAuditEvent`,
`logLLMCall`, `logChunkProcessing`, `logLengthEnforcement`,
`createJobHistoryEntry`).

Numeric conventions.  The source computes over JS numbers; every quantity
involved here is a nonnegative word count combined with the literal
constants 0.85, 1.15, 100 and 1/2, so the embedding uses exact natural /
integer arithmetic:
  Math.round(p / q)     = (2*p + q) / (2*q)      (natural division, q > 0)
  Math.floor(t * 0.85)  = t * 85 / 100           (natural division)
  Math.ceil(t * 1.15)   = (t * 115 + 99) / 100   (natural division)
The first identity is proved against the rational definition of rounding in
`jsRoundNat_eq_floor`, and the floor/ceil identities in
`natDiv_eq_floor_mul` / `ceilDiv_eq_ceil_mul` below.

The relational store is embedded as lists of rows; `orderBy asc chunkIndex`
becomes a stable insertion sort on the `chunkIndex` key, and row updates
keyed by serial id become id-guarded maps.  The external LLM-backed
collaborators (`extractGlobalSkeleton`, `reconstructChunkConstrained`,
`stitchAndValidate` from the coherence module, which is not among the
sources) are taken as a deterministic stub parameter, as in the spec's test
harness.
-/

namespace CCStream

/-- `countWords` from the source:
`text.trim().split(/\s+/).filter(w => w.length > 0).length`, i.e. the number
of maximal nonempty runs of non-whitespace characters.  (Trimming plus
splitting on whitespace runs plus dropping empty tokens is exactly counting
those runs.)  The recursion carries whether the scan is inside a word. -/
def countWordsAux : List Char → Bool → Nat
  | [], _ => 0
  | c :: cs, inWord =>
    if c.isWhitespace then countWordsAux cs false
    else (if inWord then 0 else 1) + countWordsAux cs true

/-- Word count of a string (source lines 279-281). -/
def countWords (s : String) : Nat := countWordsAux s.data false

/-- JS `Math.round(p / q)` for naturals `p`, `q` with `q > 0`:
`Math.round x = ⌊x + 1/2⌋`, and `⌊p/q + 1/2⌋ = (2p + q) / (2q)`. -/
def jsRoundNat (p q : Nat) : Nat := (2 * p + q) / (2 * q)

/-- JS `arr.slice(-n)` for `n > 0`: the last `min n l.length` elements. -/
def sliceLast (n : Nat) (l : List α) : List α := l.drop (l.length - n)

/-- Helper for `Array.from(new Set(xs))`. -/
def jsSetDedupAux : List String → List String → List String
  | _, [] => []
  | seen, x :: xs =>
    if x ∈ seen then jsSetDedupAux seen xs
    else x :: jsSetDedupAux (x :: seen) xs

/-- `Array.from(new Set(xs))`: deduplication keeping first occurrences in
encounter order (JS `Set` iteration order is insertion order). -/
def jsSetDedup (l : List String) : List String := jsSetDedupAux [] l

/-! ## Data model (tables `reconstruction_documents`, `reconstruction_chunks`) -/

/-- Chunk lifecycle status (column `status` of `reconstruction_chunks`). -/
inductive ChunkStatus
  | pending | processing | complete | failed
deriving DecidableEq, Repr, Inhabited

/-- Job lifecycle status (column `status` of `reconstruction_documents`). -/
inductive JobStatus
  | pending | skeletonExtraction | chunkProcessing | stitching | complete | failed | aborted
deriving DecidableEq, Repr, Inhabited

/-- One entry of `conflictsDetected` in a `ChunkDelta`
({description, withChunk, severity}). -/
structure Conflict where
  description : String
  withChunk : Nat
  severity : String
deriving DecidableEq, Repr, Inhabited

/-- `ChunkDelta`: what a chunk added to the shared context.  Fields the
source reads with a `?? []` / `|| []` default are plain lists here (an
absent field is the empty list). -/
structure ChunkDelta where
  newClaimsIntroduced : List String
  termsUsed : List String
  conflictsDetected : List Conflict
  ledgerAdditions : List String
deriving DecidableEq, Repr, Inhabited

/-- Modelled from the spec: the `GlobalSkeleton` produced once per job by the
extractor in the coherence module (not among the sources).  The controller
treats it as opaque JSON (stored, reloaded, passed to the stub), so the
embedding keeps it abstract as a wrapped payload. -/
structure GlobalSkeleton where
  outline : String
deriving DecidableEq, Repr, Inhabited

/-- The length configuration columns of a job
(`targetMinWords`..`chunkTargetWords`); `processJobAsync` repackages them
into a `lengthConfig` record before the chunk loop (source lines 425-432).
`lengthRatio` (a REAL column) is carried as the exact nonnegative rational
`ratioNum / ratioDen`. -/
structure LengthConfig where
  targetMin : Nat
  targetMax : Nat
  targetMid : Nat
  ratioNum : Nat
  ratioDen : Nat
  lengthMode : String
  chunkTargetWords : Nat
deriving DecidableEq, Repr, Inhabited

/-- A row of `reconstruction_chunks`.  Timestamps, `retryCount` and
`errorMessage` are not read by any of the verified operations and are
omitted. -/
structure ChunkRow where
  id : Nat
  documentId : Nat
  chunkIndex : Nat
  chunkInputText : String
  chunkInputWords : Nat
  chunkOutputText : Option String
  actualWords : Option Nat
  targetWords : Nat
  minWords : Nat
  maxWords : Nat
  chunkDelta : Option ChunkDelta
  status : ChunkStatus
deriving DecidableEq, Repr, Inhabited

/-- A row of `reconstruction_documents`.  `updatedAt` is a millisecond
timestamp (used by the cleanup sweep); the running model stamps it with the
`now` parameter standing for `new Date()`. -/
structure JobRow where
  id : Nat
  originalText : String
  wordCount : Nat
  status : JobStatus
  globalSkeleton : Option GlobalSkeleton
  finalOutput : Option String
  finalWordCount : Option Nat
  lengthConfig : LengthConfig
  numChunks : Nat
  currentChunk : Nat
  updatedAt : Int
deriving DecidableEq, Repr, Inhabited

/-- The persisted state of one job: its document row and the chunk table
(the chunk list may also hold rows of other documents; every query filters
on `documentId`). -/
structure JobState where
  job : JobRow
  chunks : List ChunkRow
deriving DecidableEq, Repr, Inhabited

/-! ## Delta store: `getPriorDeltas` / `buildPriorDeltasSummary` -/

/-- `orderBy(asc(reconstructionChunks.chunkIndex))`: a stable sort on the
`chunkIndex` key. -/
def sortByIndex (l : List ChunkRow) : List ChunkRow :=
  List.insertionSort (fun a b => a.chunkIndex ≤ b.chunkIndex) l

/-- `getPriorDeltas(jobId, currentChunkIndex)` (source lines 83-123): for
index 0 return no context; otherwise select the job's chunk rows with
`chunkIndex < currentChunkIndex` ordered by ascending index, take their
`chunkDelta` columns and drop the nulls (`.map(c => c.chunkDelta).filter(Boolean)`). -/
def getPriorDeltas (chunks : List ChunkRow) (jobId currentChunkIndex : Nat) : List ChunkDelta :=
  if currentChunkIndex = 0 then []
  else
    let priorChunks := sortByIndex (chunks.filter fun c =>
      decide (c.documentId = jobId ∧ c.chunkIndex < currentChunkIndex))
    (priorChunks.map fun c => c.chunkDelta).reduceOption

/-- The pieces interpolated into the coherence-context prompt string by
`buildPriorDeltasSummary`. -/
structure DeltasSummary where
  chunkCount : Nat
  claimsShown : List String
  termsShown : List String
  conflictsShown : List String
deriving DecidableEq, Repr, Inhabited

/-- `buildPriorDeltasSummary` (source lines 126-166), data part: accumulate
claims, terms and conflict descriptions over the prior deltas in order, then
keep `accumulatedClaims.slice(-15)`,
`Array.from(new Set(accumulatedTerms)).slice(-20)` and
`accumulatedConflicts.slice(-5)`.  (The per-chunk `summaryLines` built at
lines 136-149 are never used in the returned string and are omitted.) -/
def buildPriorDeltasSummary (priorDeltas : List ChunkDelta) : DeltasSummary :=
  let accumulatedClaims := (priorDeltas.map fun d => d.newClaimsIntroduced).flatten
  let accumulatedTerms := (priorDeltas.map fun d => d.termsUsed).flatten
  let accumulatedConflicts :=
    (priorDeltas.map fun d => d.conflictsDetected.map fun c => c.description).flatten
  let uniqueTerms := jsSetDedup accumulatedTerms
  { chunkCount := priorDeltas.length
    claimsShown := sliceLast 15 accumulatedClaims
    termsShown := sliceLast 20 uniqueTerms
    conflictsShown := sliceLast 5 accumulatedConflicts }

/-- `buildPriorDeltasSummary`, string part: the assembled prompt fragment.
The `|| '(none yet)'` fallbacks fire exactly when the joined string is
empty, and the conflicts section is appended only when at least one conflict
was accumulated. -/
def renderPriorDeltasSummary (priorDeltas : List ChunkDelta) : String :=
  if priorDeltas.length = 0 then
    "This is the first chunk. No prior context to maintain."
  else
    let s := buildPriorDeltasSummary priorDeltas
    let claimsJoined := String.intercalate "\n" (s.claimsShown.map fun c => "  - " ++ c)
    let claimsStr := if claimsJoined = "" then "  (none yet)" else claimsJoined
    let termsJoined := String.intercalate ", " s.termsShown
    let termsStr := if termsJoined = "" then "(none yet)" else termsJoined
    let base := "=== PRIOR CHUNKS COHERENCE CONTEXT (" ++ toString s.chunkCount
      ++ " chunks) ===\n" ++ "ACCUMULATED CLAIMS (you MUST NOT contradict these):\n"
      ++ claimsStr ++ "\n\nTERMS ALREADY USED (use consistently):\n" ++ termsStr
    if s.conflictsShown.length > 0 then
      base ++ "\n\nPREVIOUS CONFLICTS DETECTED (avoid repeating):\n"
        ++ String.intercalate "\n" (s.conflictsShown.map fun c => "  - " ++ c)
    else base

/-! ## Streaming protocol messages and observable events -/

/-- Server-to-client messages of the `/ws/cc-stream` protocol, restricted to
the fields the verified properties read.  The free-text `message` fields of
`progress` / `warning` / `error` templates are elided (only the `progress`
phase and the `warning` scalar payload are kept).  `jobAborted.textSoFar`
models the `partialOutput` field (concatenation of completed chunk
outputs). -/
inductive Msg
  | jobStarted (jobId totalChunks inputWords targetWords : Nat)
  | progress (jobId : Nat) (phase : String)
  | chunkComplete (jobId chunkIndex totalChunks : Nat) (chunkText : String)
      (actualWords targetWords minWords maxWords runningTotal projectedFinal : Nat)
      (status : String)
  | warning (jobId : Nat) (projectedFinal targetWords shortfall : Nat)
  | jobComplete (jobId : Nat) (finalOutput : String) (finalWordCount : Nat)
  | jobAborted (jobId completedChunks totalChunks : Nat) (textSoFar : String) (wordCount : Nat)
  | jobFailed (jobId : Nat)
  | jobResumed (jobId currentChunk totalChunks : Nat)
  | jobAlreadyComplete (jobId : Nat)
  | abortAcknowledged (jobId : Nat)
  | errorMsg (message : String)
deriving DecidableEq, Repr, Inhabited

/-- The observable effects of a run: broadcast messages, awaited LLM calls,
and chunk-status writes (`db.update(reconstructionChunks).set({status: ...})`),
each recording the status the row held just before the write. -/
inductive Event
  | msg (m : Msg)
  | llmExtractSkeleton
  | llmReconstruct (chunkIndex : Nat)
  | statusSet (chunkId : Nat) (before after : ChunkStatus)
deriving DecidableEq, Repr, Inhabited

/-- Modelled from the spec: the external LLM-backed collaborators of the
coherence module (not among the sources) as a deterministic stub — the
spec's test harness "uses a recorded stub LLM".  `reconstruct` receives the
chunk input text, the chunk index, the total chunk count, the skeleton, the
length configuration and the prior-deltas context string, exactly the
non-constant arguments of `reconstructChunkConstrained` at the call site. -/
structure StubLLM where
  skeleton : GlobalSkeleton
  reconstruct : String → Nat → Nat → GlobalSkeleton → LengthConfig → String → String × ChunkDelta
  stitch : GlobalSkeleton → List (String × ChunkDelta) → String

/-! ## Row updates -/

/-- `db.update(reconstructionChunks).set(...).where(eq(reconstructionChunks.id, cid))`:
rewrite every row whose serial id is `cid`. -/
def updateChunkRow (chunks : List ChunkRow) (cid : Nat) (f : ChunkRow → ChunkRow) : List ChunkRow :=
  chunks.map fun c => if c.id = cid then f c else c

/-- The status a row holds in the table (used to record the `before` field of
a `statusSet` event); defaults to the written status if the row is absent. -/
def rowStatusBefore (chunks : List ChunkRow) (cid : Nat) (dflt : ChunkStatus) : ChunkStatus :=
  ((chunks.find? fun c => decide (c.id = cid)).map fun c => c.status).getD dflt

/-! ## Per-chunk processing -/

/-- Source line 511:
`Math.round(runningWordCount / (chunk.chunkIndex + 1) * job.numChunks)`
= `jsRoundNat (runningWordCount * numChunks) (chunkIndex + 1)`. -/
def projectedFinalWords (runningWordCount chunkIndex numChunks : Nat) : Nat :=
  jsRoundNat (runningWordCount * numChunks) (chunkIndex + 1)

/-- Source lines 530-543: the under-production check after completing the
chunk with index `chunkIndex`.  The source guard is
`chunk.chunkIndex >= 19 && chunk.chunkIndex % 10 === 0`, and inside it
`shortfall = ((targetMid - projectedFinal) / targetMid) * 100` with a
broadcast exactly when `shortfall > 25`, carrying `Math.round(shortfall)`.
Over the integers (and agreeing with the JS float comparison also when
`targetMid = 0`, where the JS shortfall is `NaN` or `-Infinity` and the
guard is false): `shortfall > 25 ↔ 25 * targetMid < (targetMid - projectedFinal) * 100`. -/
def warningCheck (jobId chunkIndex targetMid projectedFinal : Nat) : Option Msg :=
  if 19 ≤ chunkIndex ∧ chunkIndex % 10 = 0 then
    if 25 * (targetMid : Int) < ((targetMid : Int) - (projectedFinal : Int)) * 100 then
      some (.warning jobId projectedFinal targetMid
        (jsRoundNat ((targetMid - projectedFinal) * 100) targetMid))
    else none
  else none

/-- Result of the chunk-completion write (source lines 473-499). -/
structure ChunkWriteResult where
  row : ChunkRow
  writeAttempts : Nat
  verifyWarned : Bool
deriving DecidableEq, Repr, Inhabited

/-- Source lines 473-499: the single `db.update` that commits
`chunkOutputText`, `actualWords`, `chunkDelta` and `status = complete`,
followed by a verification read of the committed row's `chunkDelta`.
`deltaPersisted` models whether the store actually retained the delta JSON
(the verification read exists precisely because it may not).  The source
performs exactly one write: when the verification read returns a null delta
it only logs a warning (`console.warn`, lines 491-493) and continues; there
is no retry path, and the `catch` branch (a write that throws) rethrows and
fails the whole job, not just the chunk. -/
def writeChunkComplete (deltaPersisted : Bool) (c : ChunkRow) (outputText : String)
    (actualWords : Nat) (delta : ChunkDelta) : ChunkWriteResult :=
  let row : ChunkRow := { c with
    chunkOutputText := some outputText
    actualWords := some actualWords
    chunkDelta := if deltaPersisted then some delta else none
    status := .complete }
  { row := row, writeAttempts := 1, verifyWarned := row.chunkDelta.isNone }

/-- The body of one iteration of the chunk loop of `processJobAsync`
(source lines 440-561, after the abort check): mark the row processing, load
prior deltas and build the coherence context, invoke the reconstructor,
commit the completed row, advance `currentChunk`, broadcast
`chunk_complete`, possibly a `warning`, and a `progress` update.  Returns
the new state, the events in order, and the updated running word count. -/
def processOneChunk (stub : StubLLM) (skel : GlobalSkeleton) (now : Int)
    (c : ChunkRow) (st : JobState) (running : Nat) : JobState × List Event × Nat :=
  let ev1 : Event := .statusSet c.id (rowStatusBefore st.chunks c.id .processing) .processing
  let chunks1 := updateChunkRow st.chunks c.id fun r => { r with status := .processing }
  let priorDeltas := getPriorDeltas chunks1 st.job.id c.chunkIndex
  let ctx := renderPriorDeltasSummary priorDeltas
  let (outputText, delta) :=
    stub.reconstruct c.chunkInputText c.chunkIndex st.job.numChunks skel st.job.lengthConfig ctx
  let actualWords := countWords outputText
  let running' := running + actualWords
  let chunkStatusStr :=
    if c.minWords ≤ actualWords ∧ actualWords ≤ c.maxWords then "on_target" else "flagged"
  let ev2 : Event := .statusSet c.id (rowStatusBefore chunks1 c.id .complete) .complete
  let chunks2 := updateChunkRow chunks1 c.id fun r =>
    (writeChunkComplete true r outputText actualWords delta).row
  let job' := { st.job with currentChunk := c.chunkIndex + 1, updatedAt := now }
  let projected := projectedFinalWords running' c.chunkIndex st.job.numChunks
  let mComplete : Msg := .chunkComplete st.job.id c.chunkIndex st.job.numChunks outputText
      actualWords c.targetWords c.minWords c.maxWords running' projected chunkStatusStr
  let warnEvents :=
    (warningCheck st.job.id c.chunkIndex st.job.lengthConfig.targetMid projected).toList.map Event.msg
  (⟨job', chunks2⟩,
   [ev1, .llmReconstruct c.chunkIndex, ev2, .msg mComplete] ++ warnEvents
     ++ [.msg (.progress st.job.id "chunk_processing")],
   running')

/-- The chunk loop of `processJobAsync` (source lines 434-562): before each
chunk the cooperative abort flag is read (`activeJobs.get(jobId)?.aborted`);
`flag k` is the value the k-th read of the flag returns (read 0 happens
after skeleton extraction, read `k ≥ 1` before the k-th chunk of the run).
Returns the state, the events, and whether the abort flag was observed. -/
def processChunksLoop (stub : StubLLM) (flag : Nat → Bool) (skel : GlobalSkeleton) (now : Int) :
    List ChunkRow → JobState → Nat → Nat → JobState × List Event × Bool
  | [], st, _, _ => (st, [], false)
  | c :: rest, st, running, checkIdx =>
    if flag checkIdx then (st, [], true)
    else
      let (st1, evs1, running') := processOneChunk stub skel now c st running
      let (st2, evs2, ab) := processChunksLoop stub flag skel now rest st1 running' (checkIdx + 1)
      (st2, evs1 ++ evs2, ab)

/-- `handleAbort` (source lines 663-697): set the job status to `aborted`,
select the job's complete chunks in index order, concatenate their outputs
with `\n\n` (JS `join` renders a null entry as the empty string) and
broadcast `job_aborted` with the completed count and the partial output. -/
def handleAbort (now : Int) (st : JobState) : JobState × List Event :=
  let job' := { st.job with status := .aborted, updatedAt := now }
  let completedChunks := sortByIndex (st.chunks.filter fun c =>
    decide (c.documentId = st.job.id ∧ c.status = .complete))
  let textSoFar := String.intercalate "\n\n" (completedChunks.map fun c => c.chunkOutputText.getD "")
  (⟨job', st.chunks⟩,
   [.msg (.jobAborted st.job.id completedChunks.length st.job.numChunks textSoFar
      (countWords textSoFar))])

/-- `processJobAsync` (source lines 376-645) for a registered job under a
deterministic stub (which never throws, so the transport-failure `catch` is
unreachable): broadcast the skeleton phase, run the extractor
(unconditionally — the stored `globalSkeleton` is never read), store the
skeleton, honor the abort flag, select ALL of the job's chunk rows in index
order (no status filter), run the chunk loop, then either abort or stitch
(`stitchAndValidate` over the complete chunks in index order) and mark the
job complete. -/
def processJobAsync (stub : StubLLM) (flag : Nat → Bool) (now : Int) (st : JobState) :
    JobState × List Event :=
  let jobId := st.job.id
  let headEvents : List Event := [.msg (.progress jobId "skeleton_extraction"), .llmExtractSkeleton]
  let skel := stub.skeleton
  let st2 : JobState := ⟨{ st.job with
    status := .chunkProcessing
    globalSkeleton := some skel
    updatedAt := now }, st.chunks⟩
  if flag 0 then
    let (st3, evs3) := handleAbort now st2
    (st3, headEvents ++ evs3)
  else
    let snapshot := sortByIndex (st2.chunks.filter fun c => decide (c.documentId = jobId))
    let (st3, evs3, ab) :=
      processChunksLoop stub flag skel now snapshot st2 0 1
    let midEvents := headEvents ++ [.msg (.progress jobId "chunk_processing")] ++ evs3
    if ab then
      let (st4, evs4) := handleAbort now st3
      (st4, midEvents ++ evs4)
    else
      let completedChunks := sortByIndex (st3.chunks.filter fun c =>
        decide (c.documentId = jobId ∧ c.status = .complete))
      let chunksForStitch := completedChunks.map fun c =>
        (c.chunkOutputText.getD "", c.chunkDelta.getD default)
      let finalOutput := stub.stitch skel chunksForStitch
      let finalWordCount := countWords finalOutput
      let st5 : JobState := ⟨{ st3.job with
        finalOutput := some finalOutput
        finalWordCount := some finalWordCount
        status := .complete
        updatedAt := now }, st3.chunks⟩
      (st5, midEvents ++ [.msg (.progress jobId "stitching"),
        .msg (.jobComplete jobId finalOutput finalWordCount)])

/-- `resumeJob` (source lines 709-744): a job whose status is `complete`
answers `job_already_complete`; a job present in the `activeJobs` registry
(`isActive`) is rejected; any other existing job — `aborted` and `failed`
included — is re-registered and handed to `processJobAsync`. -/
def resumeJob (stub : StubLLM) (flag : Nat → Bool) (now : Int) (isActive : Bool)
    (st : JobState) : JobState × List Event :=
  if st.job.status = .complete then
    (st, [.msg (.jobAlreadyComplete st.job.id)])
  else if isActive then
    (st, [.msg (.errorMsg "Job is already running")])
  else
    let (st', evs') := processJobAsync stub flag now st
    (st', .msg (.jobResumed st.job.id st.job.currentChunk st.job.numChunks) :: evs')

/-- `abortJob` (source lines 699-707): acknowledge and set the cooperative
flag when the job is registered as running, otherwise answer an error.  (The
flag itself is the `flag` parameter of the running `processJobAsync`.) -/
def abortJob (isActive : Bool) (jobId : Nat) : List Msg :=
  if isActive then [.abortAcknowledged jobId] else [.errorMsg "Job is not currently running"]

/-! ## Job creation: `startStreamingJob` -/

/-- One piece returned by the external `smartChunk` (text plus input word
count). -/
structure ChunkPiece where
  text : String
  wordCount : Nat
deriving DecidableEq, Repr, Inhabited

/-- Source lines 338-358: the chunk row inserted for piece `i`.
`chunkTarget = Math.round(chunkInputWords * lengthRatio)`,
`minWords = Math.floor(chunkTarget * 0.85)`,
`maxWords = Math.ceil(chunkTarget * 1.15)` (see the numeric conventions in
the file header).  `baseId` stands for the store's serial id counter. -/
def mkChunkRow (jobId : Nat) (cfg : LengthConfig) (baseId : Nat) (i : Nat)
    (piece : ChunkPiece) : ChunkRow :=
  let chunkTarget := jsRoundNat (piece.wordCount * cfg.ratioNum) cfg.ratioDen
  { id := baseId + i
    documentId := jobId
    chunkIndex := i
    chunkInputText := piece.text
    chunkInputWords := piece.wordCount
    chunkOutputText := none
    actualWords := none
    targetWords := chunkTarget
    minWords := chunkTarget * 85 / 100
    maxWords := (chunkTarget * 115 + 99) / 100
    chunkDelta := none
    status := .pending }

/-- Outcome of a `start_job` request: either rejected with an `error`
message before any row is created, or a fresh job row and its chunk rows. -/
inductive StartResult
  | rejected (error : String)
  | started (job : JobRow) (chunkRows : List ChunkRow)
deriving DecidableEq, Repr, Inhabited

/-- `startStreamingJob` (source lines 283-374), up to the job-row and
chunk-row inserts.  The external `parseTargetLength` / `calculateLengthConfig`
result is the parameter `cfg` and the `smartChunk` result is `pieces`;
`jobId` / `baseChunkId` stand for the serial ids the store assigns.  The
source rejects `wordCount > 50000` and then `wordCount <= 500`, each before
any insert. -/
def startStreamingJob (text : String) (cfg : LengthConfig) (pieces : List ChunkPiece)
    (jobId baseChunkId : Nat) (now : Int) : StartResult :=
  let wordCount := countWords text
  if 50000 < wordCount then
    .rejected "Input exceeds maximum of 50,000 words"
  else if wordCount ≤ 500 then
    .rejected "Document too short for CC processing. Use standard reconstruction."
  else
    let job : JobRow := {
      id := jobId, originalText := text, wordCount := wordCount, status := .pending
      globalSkeleton := none, finalOutput := none, finalWordCount := none
      lengthConfig := cfg, numChunks := pieces.length, currentChunk := 0
      updatedAt := now }
    .started job (pieces.enum.map fun p => mkChunkRow jobId cfg baseChunkId p.1 p.2)

/-- The chunk rows a `start_job` request created (none on rejection). -/
def StartResult.createdChunkRows : StartResult → List ChunkRow
  | .rejected _ => []
  | .started _ rows => rows

/-- Whether a `start_job` request created a job. -/
def StartResult.isStarted : StartResult → Bool
  | .rejected _ => false
  | .started _ _ => true

/-! ## `cleanupOldJobs` -/

/-- `cleanupOldJobs` (source lines 775-794): the sweep selects the jobs with
status `complete` (only!), and deletes each of them — with its chunks —
whose `updatedAt` is strictly older than `now - 24h`.  Returns the surviving
jobs, the surviving chunks and `deletedCount`.  (The per-job re-select of
the loop is collapsed into filters; row ids are the keys.) -/
def cleanupOldJobs (nowMs : Int) (jobs : List JobRow) (chunks : List ChunkRow) :
    List JobRow × List ChunkRow × Nat :=
  let cutoff := nowMs - 24 * 60 * 60 * 1000
  let doomed := jobs.filter fun j => decide (j.status = .complete ∧ j.updatedAt < cutoff)
  (jobs.filter fun j => decide (¬(j.status = .complete ∧ j.updatedAt < cutoff)),
   chunks.filter fun c => decide (c.documentId ∉ doomed.map JobRow.id),
   doomed.length)

/-! ## Audit service

Each logging function is an async TS function returning `Promise<number>`;
the embedding gives it type `Except String Int` — `.ok` a resolved value,
`.error` a rejection.  Each `db.insert(...).returning({id})` is a parameter
of type `Except String Nat` (a fresh row id, or a store rejection). -/

/-- `logAuditEvent` (auditService lines 15-23): try the insert, return its
id; on any failure log and return -1. -/
def logAuditEvent (insertAuditEvent : Except String Nat) : Except String Int :=
  match (do let id ← insertAuditEvent; pure (id : Int) : Except String Int) with
  | .ok v => .ok v
  | .error _ => .ok (-1)

/-- `logLLMCall` (auditService lines 25-81): inside its own try, first log an
audit event (which cannot reject), then insert the `llmCalls` row and return
its id; on failure return -1. -/
def logLLMCall (insertAuditEvent insertLlmCall : Except String Nat) : Except String Int :=
  match (do
      let _auditEventId := match logAuditEvent insertAuditEvent with
        | .ok v => v
        | .error _ => -1
      let id ← insertLlmCall
      pure (id : Int) : Except String Int) with
  | .ok v => .ok v
  | .error _ => .ok (-1)

/-- `logChunkProcessing` (auditService lines 83-136): same shape over the
`chunkProcessingLogs` insert. -/
def logChunkProcessing (insertAuditEvent insertChunkLog : Except String Nat) :
    Except String Int :=
  match (do
      let _ := match logAuditEvent insertAuditEvent with
        | .ok v => v
        | .error _ => -1
      let id ← insertChunkLog
      pure (id : Int) : Except String Int) with
  | .ok v => .ok v
  | .error _ => .ok (-1)

/-- `logLengthEnforcement` (auditService lines 138-179): same shape over the
`lengthEnforcementLogs` insert. -/
def logLengthEnforcement (insertAuditEvent insertLengthLog : Except String Nat) :
    Except String Int :=
  match (do
      let _ := match logAuditEvent insertAuditEvent with
        | .ok v => v
        | .error _ => -1
      let id ← insertLengthLog
      pure (id : Int) : Except String Int) with
  | .ok v => .ok v
  | .error _ => .ok (-1)

/-- `createJobHistoryEntry` (auditService lines 181-227): same shape over
the `jobHistory` insert. -/
def createJobHistoryEntry (insertAuditEvent insertJobHistory : Except String Nat) :
    Except String Int :=
  match (do
      let _ := match logAuditEvent insertAuditEvent with
        | .ok v => v
        | .error _ => -1
      let id ← insertJobHistory
      pure (id : Int) : Except String Int) with
  | .ok v => .ok v
  | .error _ => .ok (-1)

/-! ## Reference (uninterrupted) semantics for the chunk pipeline -/

/-- The completed version of a chunk row for a reconstructor result: exactly
the fields the commit write sets. -/
def completeRow (c : ChunkRow) (od : String × ChunkDelta) : ChunkRow :=
  { c with
    chunkOutputText := some od.1
    actualWords := some (countWords od.1)
    chunkDelta := some od.2
    status := .complete }

/-- Pointwise completion of a list of rows with reconstructor results. -/
def completeRows (cs : List ChunkRow) (outs : List (String × ChunkDelta)) : List ChunkRow :=
  List.zipWith completeRow cs outs

/-- The uninterrupted reference semantics of the pipeline: process the rows
in order, each seeing the rendered summary of all previously produced
deltas (`prior`). -/
def idealOutputs (stub : StubLLM) (skel : GlobalSkeleton) (cfg : LengthConfig) (numChunks : Nat) :
    List ChunkRow → List ChunkDelta → List (String × ChunkDelta)
  | [], _ => []
  | c :: rest, prior =>
    let od := stub.reconstruct c.chunkInputText c.chunkIndex numChunks skel cfg
      (renderPriorDeltasSummary prior)
    od :: idealOutputs stub skel cfg numChunks rest (prior ++ [od.2])

/-! ## Numeric bridges: the integer encodings against the JS formulas -/

/-- `jsRoundNat p q` is `Math.round (p / q)`, i.e. `⌊p/q + 1/2⌋`. -/
theorem jsRoundNat_eq_floor (p q : Nat) (hq : 0 < q) :
    (jsRoundNat p q : ℤ) = ⌊(p : ℚ) / q + 1 / 2⌋ := by
  have hq' : ((q : ℚ)) ≠ 0 := by exact_mod_cast hq.ne'
  have h1 : (p : ℚ) / q + 1 / 2 = (((2 * p + q : ℕ) : ℤ) : ℚ) / ((2 * q : ℕ) : ℚ) := by
    push_cast
    field_simp
    ring
  rw [h1, Rat.floor_intCast_div_natCast, jsRoundNat]
  push_cast [Int.ofNat_div]
  norm_num

/-- `t * 85 / 100` in natural division is `Math.floor (t * 0.85)`. -/
theorem natDiv_eq_floor_mul (t : Nat) :
    ((t * 85 / 100 : Nat) : ℤ) = ⌊(t : ℚ) * (85 / 100)⌋ := by
  have h1 : (t : ℚ) * (85 / 100) = (((t * 85 : ℕ) : ℤ) : ℚ) / ((100 : ℕ) : ℚ) := by
    push_cast; ring
  rw [h1, Rat.floor_intCast_div_natCast]
  push_cast [Int.ofNat_div]
  norm_num

/-- `(t * 115 + 99) / 100` in natural division is `Math.ceil (t * 1.15)`. -/
theorem ceilDiv_eq_ceil_mul (t : Nat) :
    (((t * 115 + 99) / 100 : Nat) : ℤ) = ⌈(t : ℚ) * (115 / 100)⌉ := by
  have h1 : (t : ℚ) * (115 / 100) = ((t * 115 : ℕ) : ℚ) / 100 := by push_cast; ring
  rw [h1]
  set a := t * 115 with ha
  set d := (a + 99) / 100 with hd
  have h2 : 100 * d ≤ a + 99 := by omega
  have h3 : a ≤ 100 * d := by omega
  symm
  rw [Int.ceil_eq_iff]
  refine ⟨?_, ?_⟩
  · rw [lt_div_iff₀ (by norm_num : (0 : ℚ) < 100)]
    push_cast
    have h2q : (100 : ℚ) * (d : ℚ) ≤ (a : ℚ) + 99 := by exact_mod_cast h2
    linarith
  · rw [div_le_iff₀ (by norm_num : (0 : ℚ) < 100)]
    push_cast
    have h3q : (a : ℚ) ≤ 100 * (d : ℚ) := by exact_mod_cast h3
    linarith

/-! ## C4: input limits -/

/-- C4: a `start_job` request creates the job if and only if the input's
word count lies in the closed interval [501, 50000]; outside that range the
request is rejected with an error message before any row is created (the
result then carries no job row and no chunk rows). -/
theorem claim_C4_input_limits (text : String) (cfg : LengthConfig) (pieces : List ChunkPiece)
    (jobId baseChunkId : Nat) (now : Int) :
    ((startStreamingJob text cfg pieces jobId baseChunkId now).isStarted = true
      ↔ (501 ≤ countWords text ∧ countWords text ≤ 50000))
    ∧ ((∃ e, startStreamingJob text cfg pieces jobId baseChunkId now = .rejected e)
      ↔ ¬(501 ≤ countWords text ∧ countWords text ≤ 50000)) := by
  simp only [startStreamingJob]
  split_ifs with h1 h2 <;>
    simp [StartResult.isStarted, StartResult.createdChunkRows] <;>
    omega

/-! ## C5: under-production warning schedule -/

/-- C5 counterexample: at chunk index 19 the check never fires — here with
`targetMid = 1000` and `projectedFinal = 100` the shortfall is 90% (well
above the 25% threshold expressed over the integers in the second conjunct),
yet no warning is produced, because the source guard is
`chunkIndex >= 19 && chunkIndex % 10 === 0` and `19 % 10 ≠ 0`.  At index 20
the same figures do produce a warning. -/
theorem claim_C5_counterexample :
    warningCheck 7 19 1000 100 = none
    ∧ 25 * (1000 : Int) < ((1000 : Int) - (100 : Int)) * 100
    ∧ (warningCheck 7 20 1000 100).isSome = true := by
  refine ⟨by decide, by decide, by decide⟩

/-- C5 (amended): after each completed chunk k the controller computes the
projected final word count `Math.round(runningWords/(k+1)·numChunks)`, and
the under-production check fires exactly at the chunk indices that are
multiples of 10 and at least 19 — that is 20, 30, 40, …, never 19 —
broadcasting a warning (carrying projectedFinal, targetWords and the rounded
shortfall) exactly when the shortfall relative to targetMid exceeds 25%. -/
theorem claim_C5_warning_schedule (jobId k targetMid projected running numChunks : Nat)
    (htm : 0 < targetMid) :
    ((warningCheck jobId k targetMid projected).isSome = true
      ↔ (19 ≤ k ∧ k % 10 = 0 ∧ ((targetMid : ℚ) - projected) / targetMid * 100 > 25))
    ∧ (projectedFinalWords running k numChunks : ℤ)
        = ⌊(running : ℚ) / (k + 1) * numChunks + 1 / 2⌋
    ∧ warningCheck jobId k targetMid projected
        = (if 19 ≤ k ∧ k % 10 = 0
              ∧ 25 * (targetMid : Int) < ((targetMid : Int) - (projected : Int)) * 100
           then some (.warning jobId projected targetMid
              (jsRoundNat ((targetMid - projected) * 100) targetMid))
           else none) := by
  have htmQ : (0 : ℚ) < targetMid := by exact_mod_cast htm
  have hIff : (25 * (targetMid : Int) < ((targetMid : Int) - (projected : Int)) * 100)
      ↔ ((targetMid : ℚ) - projected) / targetMid * 100 > 25 := by
    rw [gt_iff_lt, div_mul_eq_mul_div, lt_div_iff htmQ]
    constructor
    · intro h
      have h' : (25 : ℚ) * targetMid < ((targetMid : ℚ) - projected) * 100 := by
        exact_mod_cast h
      linarith
    · intro h
      have h' : (25 : ℚ) * targetMid < ((targetMid : ℚ) - projected) * 100 := by linarith
      exact_mod_cast h'
  refine ⟨?_, ?_, ?_⟩
  · unfold warningCheck
    split_ifs with h1 h2 <;> simp_all <;> tauto
  · unfold projectedFinalWords
    rw [jsRoundNat_eq_floor _ _ (Nat.succ_pos k)]
    congr 2
    push_cast
    ring
  · unfold warningCheck
    split_ifs with h1 h2 h3 <;> first | rfl | tauto

/-! ## C6: chunk length bands -/

/-- C6: every chunk row created at job start has
`minWords = ⌊targetWords · 0.85⌋` and `maxWords = ⌈targetWords · 1.15⌉`. -/
theorem claim_C6_length_band (text : String) (cfg : LengthConfig) (pieces : List ChunkPiece)
    (jobId baseChunkId : Nat) (now : Int) (c : ChunkRow)
    (hc : c ∈ (startStreamingJob text cfg pieces jobId baseChunkId now).createdChunkRows) :
    (c.minWords : ℤ) = ⌊(c.targetWords : ℚ) * (85 / 100)⌋
    ∧ (c.maxWords : ℤ) = ⌈(c.targetWords : ℚ) * (115 / 100)⌉ := by
  simp only [startStreamingJob] at hc
  split_ifs at hc <;> simp [StartResult.createdChunkRows] at hc
  obtain ⟨a, b, -, rfl⟩ := hc
  simp only [mkChunkRow]
  exact ⟨natDiv_eq_floor_mul _, ceilDiv_eq_ceil_mul _⟩

/-! ## C3: the delta verification read -/

/-- A sample chunk row for concrete counterexamples. -/
def sampleRow : ChunkRow :=
  { id := 10, documentId := 1, chunkIndex := 0, chunkInputText := "in", chunkInputWords := 2
    chunkOutputText := none, actualWords := none, targetWords := 3, minWords := 2, maxWords := 4
    chunkDelta := none, status := .processing }

/-- A sample delta for concrete counterexamples. -/
def sampleDelta : ChunkDelta :=
  { newClaimsIntroduced := ["claim A"], termsUsed := ["term"], conflictsDetected := []
    ledgerAdditions := [] }

/-- C3 counterexample: when the committed delta does not persist, the chunk
nevertheless ends with status `complete` and a null delta after exactly one
write — no retry happened and the chunk was not failed; the code only set
the verification warning. -/
theorem claim_C3_counterexample :
    (writeChunkComplete false sampleRow "out text" 2 sampleDelta).row.status = .complete
    ∧ (writeChunkComplete false sampleRow "out text" 2 sampleDelta).row.chunkDelta = none
    ∧ (writeChunkComplete false sampleRow "out text" 2 sampleDelta).writeAttempts = 1
    ∧ (writeChunkComplete false sampleRow "out text" 2 sampleDelta).verifyWarned = true := by
  refine ⟨rfl, rfl, rfl, rfl⟩

/-- C3 (amended): the chunk commit performs exactly one write and always
leaves the chunk `complete`; when the verification read after the commit
shows a null delta the code only logs a warning — there is no retry and the
chunk is not failed — and when the delta persists it is the written one. -/
theorem claim_C3_verify_only_warns (persisted : Bool) (c : ChunkRow) (out : String)
    (aw : Nat) (d : ChunkDelta) :
    (writeChunkComplete persisted c out aw d).writeAttempts = 1
    ∧ (writeChunkComplete persisted c out aw d).row.status = .complete
    ∧ ((writeChunkComplete persisted c out aw d).verifyWarned = true
        ↔ (writeChunkComplete persisted c out aw d).row.chunkDelta = none)
    ∧ (writeChunkComplete true c out aw d).row.chunkDelta = some d := by
  cases persisted <;> simp [writeChunkComplete]

/-! ## C9: the cleanup sweep -/

/-- A sample length configuration for concrete instances. -/
def sampleLengthConfig : LengthConfig :=
  { targetMin := 900, targetMax := 1100, targetMid := 1000, ratioNum := 1, ratioDen := 1
    lengthMode := "preserve", chunkTargetWords := 600 }

/-- A long-aborted job for the C9 counterexample (`updatedAt = 0`, i.e. far
older than any 24h cutoff of a positive clock). -/
def oldAbortedJob : JobRow :=
  { id := 3, originalText := "t", wordCount := 600, status := .aborted
    globalSkeleton := none, finalOutput := none, finalWordCount := none
    lengthConfig := sampleLengthConfig
    numChunks := 1, currentChunk := 0, updatedAt := 0 }

/-- C9 counterexample: a job that has been in the `aborted` state far longer
than 24 hours survives the sweep untouched (the source selects only
`status = 'complete'` rows), refuting "every job in either of those two
terminal states older than the 24-hour cutoff is garbage-collected". -/
theorem claim_C9_counterexample :
    (cleanupOldJobs 200000000 [oldAbortedJob] []).1 = [oldAbortedJob]
    ∧ (cleanupOldJobs 200000000 [oldAbortedJob] []).2.2 = 0
    ∧ oldAbortedJob.status = .aborted
    ∧ oldAbortedJob.updatedAt < 200000000 - 24 * 60 * 60 * 1000 := by
  refine ⟨by decide, by decide, rfl, by decide⟩

/-- C9 (amended): the periodic sweep deletes exactly the jobs in the
`complete` state whose `updatedAt` is more than 24 hours old, together with
their chunks; jobs in any other state — `aborted` included — are never
deleted by the sweep. -/
theorem claim_C9_cleanup_scope (nowMs : Int) (jobs : List JobRow) (chunks : List ChunkRow) :
    (∀ j, j ∈ (cleanupOldJobs nowMs jobs chunks).1
      ↔ (j ∈ jobs ∧ ¬(j.status = .complete ∧ j.updatedAt < nowMs - 24 * 60 * 60 * 1000)))
    ∧ (cleanupOldJobs nowMs jobs chunks).2.2
      = (jobs.filter fun j =>
          decide (j.status = .complete ∧ j.updatedAt < nowMs - 24 * 60 * 60 * 1000)).length
    ∧ (∀ c, c ∈ (cleanupOldJobs nowMs jobs chunks).2.1
      ↔ (c ∈ chunks ∧ c.documentId ∉
          ((jobs.filter fun j =>
            decide (j.status = .complete ∧ j.updatedAt < nowMs - 24 * 60 * 60 * 1000)).map
              JobRow.id))) := by
  refine ⟨?_, rfl, ?_⟩
  · intro j
    simp [cleanupOldJobs, List.mem_filter]
    tauto
  · intro c
    simp [cleanupOldJobs, List.mem_filter]

/-! ## C10: audit logging is total -/

/-- C10: every audit logging operation resolves (its promise is never
rejected): on a database failure it resolves to the sentinel -1 instead of
propagating, and a failed inner audit-event write never fails the outer
logging call (`logLLMCall` with a failed audit insert still returns the llm
row id). -/
theorem claim_C10_audit_never_throws (a b : Except String Nat) (e : String) (n : Nat) :
    (∃ v, logAuditEvent a = .ok v) ∧ logAuditEvent (.error e) = .ok (-1)
    ∧ (∃ v, logLLMCall a b = .ok v) ∧ logLLMCall a (.error e) = .ok (-1)
    ∧ logLLMCall (.error e) (.ok n) = .ok (n : Int)
    ∧ (∃ v, logChunkProcessing a b = .ok v) ∧ logChunkProcessing a (.error e) = .ok (-1)
    ∧ (∃ v, logLengthEnforcement a b = .ok v) ∧ logLengthEnforcement a (.error e) = .ok (-1)
    ∧ (∃ v, createJobHistoryEntry a b = .ok v) ∧ createJobHistoryEntry a (.error e) = .ok (-1) := by
  cases a <;> cases b <;>
    simp [logAuditEvent, logLLMCall, logChunkProcessing, logLengthEnforcement,
      createJobHistoryEntry, Except.bind]

/-! ## C7: the prior-deltas window and the summary caps -/

/-- `slice(-n)` keeps at most `n` elements. -/
theorem sliceLast_length_le (n : Nat) (l : List α) : (sliceLast n l).length ≤ n := by
  simp [sliceLast]
  omega

/-- `slice(-n)` keeps a sublist. -/
theorem sliceLast_sublist (n : Nat) (l : List α) : (sliceLast n l).Sublist l :=
  List.drop_sublist _ _

/-- The dedup accumulator produces a duplicate-free list avoiding `seen`. -/
theorem jsSetDedupAux_spec (l : List String) : ∀ seen : List String,
    (jsSetDedupAux seen l).Nodup ∧ ∀ x ∈ jsSetDedupAux seen l, x ∉ seen := by
  induction l with
  | nil => intro seen; simp [jsSetDedupAux]
  | cons y ys ih =>
    intro seen
    by_cases hy : y ∈ seen
    · simpa [jsSetDedupAux, hy] using ih seen
    · have h1 := ih (y :: seen)
      refine ⟨?_, ?_⟩
      · rw [jsSetDedupAux, if_neg hy, List.nodup_cons]
        refine ⟨fun hmem => (h1.2 y hmem) (List.mem_cons_self y seen), h1.1⟩
      · intro x hx
        rw [jsSetDedupAux, if_neg hy] at hx
        rcases List.mem_cons.mp hx with rfl | hx'
        · exact hy
        · exact fun hxseen => (h1.2 x hx') (List.mem_cons_of_mem _ hxseen)

/-- `Array.from(new Set(xs))` has no duplicates. -/
theorem jsSetDedup_nodup (l : List String) : (jsSetDedup l).Nodup :=
  (jsSetDedupAux_spec l []).1

/-- C7: `getPriorDeltas(jobId, k)` returns exactly the non-null deltas of
the job's chunk rows with index < k — the job's rows taken in ascending
index order — and the empty list for k = 0; and the coherence summary built
from any delta list shows at most the last 15 accumulated claims, at most 20
terms with no duplicates among them, and at most the last 5 conflict
descriptions, however many deltas precede. -/
theorem claim_C7_prior_deltas_window (chunks : List ChunkRow) (jobId k : Nat)
    (ds : List ChunkDelta)
    (hSorted : (chunks.filter fun c => decide (c.documentId = jobId)).Sorted
      (fun a b => a.chunkIndex ≤ b.chunkIndex)) :
    getPriorDeltas chunks jobId k
      = (((chunks.filter fun c => decide (c.documentId = jobId)).filter
          fun c => decide (c.chunkIndex < k)).map fun c => c.chunkDelta).reduceOption
    ∧ getPriorDeltas chunks jobId 0 = []
    ∧ (buildPriorDeltasSummary ds).claimsShown.length ≤ 15
    ∧ (buildPriorDeltasSummary ds).termsShown.length ≤ 20
    ∧ (buildPriorDeltasSummary ds).termsShown.Nodup
    ∧ (buildPriorDeltasSummary ds).conflictsShown.length ≤ 5 := by
  refine ⟨?_, rfl, sliceLast_length_le _ _, sliceLast_length_le _ _,
    (jsSetDedup_nodup _).sublist (sliceLast_sublist _ _), sliceLast_length_le _ _⟩
  unfold getPriorDeltas
  by_cases hk : k = 0
  · subst hk
    rw [if_pos rfl]
    have h0 : ((chunks.filter fun c => decide (c.documentId = jobId)).filter
        fun c => decide (c.chunkIndex < 0)) = [] := by
      apply List.filter_eq_nil_iff.mpr
      intro c _
      simp
    rw [h0]
    rfl
  · rw [if_neg hk]
    have hff : (chunks.filter fun c => decide (c.documentId = jobId ∧ c.chunkIndex < k))
        = ((chunks.filter fun c => decide (c.documentId = jobId)).filter
            fun c => decide (c.chunkIndex < k)) := by
      rw [List.filter_filter]
      apply List.filter_congr
      intro c _
      simp [Bool.and_comm]
    have hs : ((chunks.filter fun c => decide (c.documentId = jobId)).filter
        fun c => decide (c.chunkIndex < k)).Sorted
          (fun a b => a.chunkIndex ≤ b.chunkIndex) :=
      hSorted.sublist (List.filter_sublist _)
    simp only [hff, sortByIndex, List.Sorted.insertionSort_eq hs]

/-! ## Concrete instances and witnesses -/

/-- A text of `n` words: `n` copies of "w " (so `countWords` is `n`),
evaluable without deep kernel recursion through `countWordsAux_wPairs`. -/
def wRepl (n : Nat) : String := String.mk ((List.replicate n ['w', ' ']).flatten)

/-- Counting the words of `n` repetitions of "w ". -/
theorem countWordsAux_wPairs (n : Nat) :
    countWordsAux ((List.replicate n ['w', ' ']).flatten) false = n := by
  induction n with
  | zero => rfl
  | succ m ih =>
    rw [List.replicate_succ, List.flatten_cons]
    show countWordsAux ('w' :: ' ' :: (List.replicate m ['w', ' ']).flatten) false = m + 1
    have hw : 'w'.isWhitespace = false := by decide
    have hs : ' '.isWhitespace = true := by decide
    simp [countWordsAux, hw, hs, ih]
    omega

/-- `wRepl n` has exactly `n` words. -/
theorem countWords_wRepl (n : Nat) : countWords (wRepl n) = n :=
  countWordsAux_wPairs n

/-- Witness for the C5 theorem at chunk index 20 with a 90% shortfall. -/
theorem claim_C5_warning_schedule_witness :
    0 < 1000 ∧ ((warningCheck 7 20 1000 100).isSome = true ↔
      (19 ≤ 20 ∧ 20 % 10 = 0
        ∧ (((1000 : ℕ) : ℚ) - ((100 : ℕ) : ℚ)) / ((1000 : ℕ) : ℚ) * 100 > 25)) :=
  ⟨by decide, (claim_C5_warning_schedule 7 20 1000 100 5 3 (by decide)).1⟩

/-- A sample chunk piece for the C6 witness. -/
def samplePiece : ChunkPiece := { text := "p", wordCount := 600 }

/-- Witness for the C6 theorem: a 501-word input is accepted and its single
chunk row satisfies the floor bound of the band. -/
theorem claim_C6_length_band_witness :
    mkChunkRow 1 sampleLengthConfig 100 0 samplePiece
      ∈ (startStreamingJob (wRepl 501) sampleLengthConfig [samplePiece] 1 100 0).createdChunkRows
    ∧ ((mkChunkRow 1 sampleLengthConfig 100 0 samplePiece).minWords : ℤ)
      = ⌊((mkChunkRow 1 sampleLengthConfig 100 0 samplePiece).targetWords : ℚ) * (85 / 100)⌋ :=
  ⟨by simp [startStreamingJob, countWords_wRepl, StartResult.createdChunkRows, List.enum],
   (claim_C6_length_band (wRepl 501) sampleLengthConfig [samplePiece] 1 100 0 _
     (by simp [startStreamingJob, countWords_wRepl, StartResult.createdChunkRows,
       List.enum])).1⟩

/-- Chunk rows of document 1 for the C7 witness (index-sorted). -/
def c7row0 : ChunkRow :=
  { sampleRow with
    id := 20
    chunkIndex := 0
    chunkDelta := some sampleDelta
    status := .complete }

/-- Second chunk row of document 1 for the C7 witness. -/
def c7row1 : ChunkRow := { sampleRow with id := 21, chunkIndex := 1 }

/-- Witness for the C7 theorem on a two-row table at k = 1. -/
theorem claim_C7_prior_deltas_window_witness :
    (([c7row0, c7row1].filter fun c => decide (c.documentId = 1)).Sorted
      (fun a b => a.chunkIndex ≤ b.chunkIndex))
    ∧ getPriorDeltas [c7row0, c7row1] 1 1
      = ((([c7row0, c7row1].filter fun c => decide (c.documentId = 1)).filter
          fun c => decide (c.chunkIndex < 1)).map fun c => c.chunkDelta).reduceOption :=
  ⟨by decide,
   (claim_C7_prior_deltas_window [c7row0, c7row1] 1 1 [sampleDelta] (by decide)).1⟩

/-! ## Machinery for the chunk-loop theorems (C1, C2, C8)

The loop invariant tracks the job's chunk rows through the `orderBy` view:
updates keyed by a serial id that occurs once rewrite exactly one row of the
sorted view, and `getPriorDeltas` of an index `i` returns the deltas of the
first `i` rows once those carry the freshly written deltas. -/

/-- Rows pairwise strictly ascending in `chunkIndex`. -/
def StrictByIdx (l : List ChunkRow) : Prop :=
  l.Pairwise fun a b => a.chunkIndex < b.chunkIndex

instance : IsTotal ChunkRow fun a b => a.chunkIndex ≤ b.chunkIndex :=
  ⟨fun a b => Nat.le_total a.chunkIndex b.chunkIndex⟩

instance : IsTrans ChunkRow fun a b => a.chunkIndex ≤ b.chunkIndex :=
  ⟨fun _ _ _ => Nat.le_trans⟩

/-- The sort view is a permutation of the table. -/
theorem sortByIndex_perm (l : List ChunkRow) : List.Perm (sortByIndex l) l :=
  List.perm_insertionSort _ l

/-- The sort view is sorted on the key. -/
theorem sortByIndex_sorted (l : List ChunkRow) :
    (sortByIndex l).Sorted fun a b => a.chunkIndex ≤ b.chunkIndex :=
  List.sorted_insertionSort _ l

/-- Key-sorted plus duplicate-free keys is strictly sorted. -/
theorem strictByIdx_of_sorted_nodup {l : List ChunkRow}
    (hs : l.Sorted fun a b => a.chunkIndex ≤ b.chunkIndex)
    (hn : (l.map fun c => c.chunkIndex).Nodup) : StrictByIdx l := by
  have hne : l.Pairwise fun a b => a.chunkIndex ≠ b.chunkIndex :=
    List.pairwise_map.mp hn
  exact (hs.and hne).imp fun h => lt_of_le_of_ne h.1 h.2

/-- Strictly key-sorted lists are duplicate-free on keys. -/
theorem nodup_keys_of_strict {l : List ChunkRow} (h : StrictByIdx l) :
    (l.map fun c => c.chunkIndex).Nodup :=
  List.pairwise_map.mpr (h.imp fun hlt => Nat.ne_of_lt hlt)

/-- Two strictly key-sorted permutations are equal. -/
theorem strict_eq_of_perm {l m : List ChunkRow} (hp : List.Perm l m)
    (hl : StrictByIdx l) (hm : StrictByIdx m) : l = m := by
  have : IsAntisymm ChunkRow (fun a b => a.chunkIndex < b.chunkIndex) :=
    ⟨fun a b h1 h2 => absurd h2 (Nat.lt_asymm h1)⟩
  exact List.eq_of_perm_of_sorted hp hl hm

/-- Computing the sort view from a strictly sorted permutation. -/
theorem sortByIndex_eq_of_perm_strict {l m : List ChunkRow} (hp : List.Perm l m)
    (hm : StrictByIdx m) : sortByIndex l = m := by
  have h1 : List.Perm (sortByIndex l) m := (sortByIndex_perm l).trans hp
  have hn : ((sortByIndex l).map fun c => c.chunkIndex).Nodup :=
    (h1.map fun c => c.chunkIndex).nodup_iff.mpr (nodup_keys_of_strict hm)
  exact strict_eq_of_perm h1 (strictByIdx_of_sorted_nodup (sortByIndex_sorted l) hn) hm

/-- `updateChunkRow` with an id-preserving rewrite keeps the id column. -/
theorem updateChunkRow_map_id (l : List ChunkRow) (cid : Nat) (f : ChunkRow → ChunkRow)
    (hf : ∀ r, (f r).id = r.id) :
    (updateChunkRow l cid f).map (fun c => c.id) = l.map fun c => c.id := by
  induction l with
  | nil => rfl
  | cons c cs ih =>
    by_cases hc : c.id = cid <;> simp [updateChunkRow, hc, hf c] at ih ⊢ <;> exact ih

/-- `updateChunkRow` commutes with a row filter the rewrite preserves. -/
theorem filter_updateChunkRow (l : List ChunkRow) (cid : Nat) (f : ChunkRow → ChunkRow)
    (p : ChunkRow → Bool) (hf : ∀ r, p (f r) = p r) :
    (updateChunkRow l cid f).filter p = updateChunkRow (l.filter p) cid f := by
  induction l with
  | nil => rfl
  | cons c cs ih =>
    by_cases hc : c.id = cid <;> by_cases hpc : p c = true <;>
      simp [updateChunkRow, List.filter_cons, hc, hpc, hf c] at ih ⊢ <;>
      simpa [updateChunkRow] using ih

/-- `orderedInsert` only compares keys, so it commutes with a key-preserving
row rewrite. -/
theorem orderedInsert_map_key (g : ChunkRow → ChunkRow)
    (hg : ∀ r, (g r).chunkIndex = r.chunkIndex) (c : ChunkRow) (l : List ChunkRow) :
    List.orderedInsert (fun a b => a.chunkIndex ≤ b.chunkIndex) (g c) (l.map g)
      = (List.orderedInsert (fun a b => a.chunkIndex ≤ b.chunkIndex) c l).map g := by
  induction l with
  | nil => rfl
  | cons d ds ih =>
    by_cases h : c.chunkIndex ≤ d.chunkIndex <;>
      simp [List.orderedInsert, hg, h, ih]

/-- The sort view commutes with a key-preserving row rewrite. -/
theorem insertionSort_map_key (g : ChunkRow → ChunkRow)
    (hg : ∀ r, (g r).chunkIndex = r.chunkIndex) (l : List ChunkRow) :
    List.insertionSort (fun a b => a.chunkIndex ≤ b.chunkIndex) (l.map g)
      = (List.insertionSort (fun a b => a.chunkIndex ≤ b.chunkIndex) l).map g := by
  induction l with
  | nil => rfl
  | cons c cs ih => simp [List.insertionSort, ih, orderedInsert_map_key g hg]

/-- The sort view of an id-keyed update is the update of the sort view. -/
theorem sortByIndex_filter_updateChunkRow (l : List ChunkRow) (cid : Nat)
    (f : ChunkRow → ChunkRow) (p : ChunkRow → Bool)
    (hfp : ∀ r, p (f r) = p r) (hfi : ∀ r, (f r).chunkIndex = r.chunkIndex) :
    sortByIndex ((updateChunkRow l cid f).filter p)
      = updateChunkRow (sortByIndex (l.filter p)) cid f := by
  rw [filter_updateChunkRow l cid f p hfp]
  unfold updateChunkRow sortByIndex
  exact insertionSort_map_key _ (fun r => by by_cases h : r.id = cid <;> simp [h, hfi r]) _

/-- An id-keyed update on a decomposition whose other rows carry other ids
rewrites exactly the distinguished row. -/
theorem updateChunkRow_decomp (done rest : List ChunkRow) (c : ChunkRow)
    (f : ChunkRow → ChunkRow)
    (hd : ∀ r ∈ done, r.id ≠ c.id) (hr : ∀ r ∈ rest, r.id ≠ c.id) :
    updateChunkRow (done ++ c :: rest) c.id f = done ++ f c :: rest := by
  unfold updateChunkRow
  rw [List.map_append]
  congr 1
  · exact (List.map_congr_left fun r hradv => by
      simp [hd r hradv]).trans (List.map_id done)
  · simp only [List.map_cons, if_pos rfl]
    congr 1
    exact (List.map_congr_left fun r hradv => by
      simp [hr r hradv]).trans (List.map_id rest)

/-- In a table with duplicate-free ids, `find?` by the id of a member
returns that member. -/
theorem find?_eq_of_nodup_mem {l : List ChunkRow} {r : ChunkRow}
    (hn : (l.map fun c => c.id).Nodup) (hr : r ∈ l) :
    l.find? (fun x => decide (x.id = r.id)) = some r := by
  induction l with
  | nil => cases hr
  | cons d ds ih =>
    rw [List.map_cons, List.nodup_cons] at hn
    rcases List.mem_cons.mp hr with rfl | hmem
    · simp [List.find?]
    · have hne : d.id ≠ r.id := by
        intro he
        exact hn.1 (he ▸ (List.mem_map_of_mem (fun c => c.id) hmem))
      rw [List.find?, decide_eq_false hne]
      exact ih hn.2 hmem

/-- `reduceOption` undoes `map some`. -/
theorem reduceOption_map_some (l : List α) : (l.map some).reduceOption = l := by
  induction l with
  | nil => rfl
  | cons a as ih => simp [List.reduceOption_cons_of_some, ih]

/-- Splitting the conjunctive row filter of `getPriorDeltas`. -/
theorem filter_doc_lt_split (chunks : List ChunkRow) (jobId k : Nat) :
    (chunks.filter fun c => decide (c.documentId = jobId ∧ c.chunkIndex < k))
      = ((chunks.filter fun c => decide (c.documentId = jobId)).filter
          fun c => decide (c.chunkIndex < k)) := by
  rw [List.filter_filter]
  apply List.filter_congr
  intro c _
  simp [Bool.and_comm]

/-- Index layout of a contiguous decomposition: the leading block carries
indices `0..done.length-1` and the tail indices `≥ done.length`. -/
theorem decomp_idx_facts (done rest : List ChunkRow)
    (hidx : (done ++ rest).map (fun c => c.chunkIndex)
      = List.range (done.length + rest.length)) :
    (done.map (fun c => c.chunkIndex) = List.range done.length)
    ∧ (∀ r ∈ rest, done.length ≤ r.chunkIndex) := by
  rw [List.map_append, List.range_add] at hidx
  have hlen : (done.map fun c => c.chunkIndex).length = (List.range done.length).length := by
    simp
  obtain ⟨h1, h2⟩ := List.append_inj hidx hlen
  refine ⟨h1, ?_⟩
  intro r hr
  have hmem : r.chunkIndex ∈ (List.range rest.length).map (done.length + ·) := by
    rw [← h2]
    exact List.mem_map_of_mem _ hr
  obtain ⟨j, -, hj⟩ := List.mem_map.mp hmem
  omega

/-- `getPriorDeltas` at the cut position of a decomposition whose processed
prefix carries exactly the accumulated deltas returns those deltas. -/
theorem getPriorDeltas_decomp (chunks : List ChunkRow) (jobId : Nat)
    (done rest : List ChunkRow) (prior : List ChunkDelta)
    (hdecomp : sortByIndex (chunks.filter fun c => decide (c.documentId = jobId))
      = done ++ rest)
    (hidx : (done ++ rest).map (fun c => c.chunkIndex)
      = List.range (done.length + rest.length))
    (hdone : done.map (fun c => c.chunkDelta) = prior.map some) :
    getPriorDeltas chunks jobId done.length = prior := by
  obtain ⟨hdi, hri⟩ := decomp_idx_facts done rest hidx
  by_cases hi : done.length = 0
  · have hd0 : done = [] := List.length_eq_zero.mp hi
    subst hd0
    have hp0 : prior = [] := by
      cases prior with
      | nil => rfl
      | cons p ps => simp at hdone
    subst hp0
    rw [hi]
    rfl
  · simp only [getPriorDeltas]
    rw [if_neg hi, filter_doc_lt_split]
    have hperm : List.Perm (chunks.filter fun c => decide (c.documentId = jobId))
        (done ++ rest) := by
      rw [← hdecomp]
      exact (sortByIndex_perm _).symm
    have hpf : List.Perm ((chunks.filter fun c => decide (c.documentId = jobId)).filter
          fun c => decide (c.chunkIndex < done.length))
        ((done ++ rest).filter fun c => decide (c.chunkIndex < done.length)) :=
      hperm.filter _
    have hdoneF : done.filter (fun c => decide (c.chunkIndex < done.length)) = done := by
      apply List.filter_eq_self.mpr
      intro r hr
      have hmem : r.chunkIndex ∈ List.range done.length := by
        rw [← hdi]
        exact List.mem_map_of_mem _ hr
      simpa using List.mem_range.mp hmem
    have hrestF : rest.filter (fun c => decide (c.chunkIndex < done.length)) = [] := by
      apply List.filter_eq_nil_iff.mpr
      intro r hr
      have := hri r hr
      simp
      omega
    have hstrict : StrictByIdx done := by
      have hpw : (done.map fun c => c.chunkIndex).Pairwise (· < ·) := by
        rw [hdi]
        exact List.pairwise_lt_range _
      exact List.pairwise_map.mp hpw
    have hsort : sortByIndex ((chunks.filter fun c => decide (c.documentId = jobId)).filter
        fun c => decide (c.chunkIndex < done.length)) = done := by
      apply sortByIndex_eq_of_perm_strict _ hstrict
      rw [List.filter_append, hdoneF, hrestF, List.append_nil] at hpf
      exact hpf
    rw [hsort, hdone, reduceOption_map_some]

/-- The events of one chunk block of the loop, for a block that starts with
the live row equal to the snapshot row `c`. -/
def idealBlockEvents (stub : StubLLM) (skel : GlobalSkeleton) (jobId numChunks targetMid : Nat)
    (cfg : LengthConfig) (c : ChunkRow) (prior : List ChunkDelta) (running : Nat) :
    List Event :=
  let od := stub.reconstruct c.chunkInputText c.chunkIndex numChunks skel cfg
    (renderPriorDeltasSummary prior)
  let aw := countWords od.1
  let running' := running + aw
  let projected := projectedFinalWords running' c.chunkIndex numChunks
  [Event.statusSet c.id c.status .processing, .llmReconstruct c.chunkIndex,
   .statusSet c.id .processing .complete,
   .msg (.chunkComplete jobId c.chunkIndex numChunks od.1 aw c.targetWords c.minWords
      c.maxWords running' projected
      (if c.minWords ≤ aw ∧ aw ≤ c.maxWords then "on_target" else "flagged"))]
  ++ (warningCheck jobId c.chunkIndex targetMid projected).toList.map Event.msg
  ++ [.msg (.progress jobId "chunk_processing")]

/-- The events of an uninterrupted run over `rows`, threading the
accumulated deltas and the running word count. -/
def idealRunEvents (stub : StubLLM) (skel : GlobalSkeleton)
    (jobId numChunks targetMid : Nat) (cfg : LengthConfig) :
    List ChunkRow → List ChunkDelta → Nat → List Event
  | [], _, _ => []
  | c :: rest, prior, running =>
    let od := stub.reconstruct c.chunkInputText c.chunkIndex numChunks skel cfg
      (renderPriorDeltasSummary prior)
    idealBlockEvents stub skel jobId numChunks targetMid cfg c prior running
      ++ idealRunEvents stub skel jobId numChunks targetMid cfg rest (prior ++ [od.2])
          (running + countWords od.1)

/-- Unfolding the loop when the abort flag reads false. -/
theorem processChunksLoop_cons (stub : StubLLM) (flag : Nat → Bool) (skel : GlobalSkeleton)
    (now : Int) (c : ChunkRow) (rest : List ChunkRow) (st : JobState)
    (running checkIdx : Nat) (h : flag checkIdx = false) :
    processChunksLoop stub flag skel now (c :: rest) st running checkIdx
      = ((processChunksLoop stub flag skel now rest
            (processOneChunk stub skel now c st running).1
            (processOneChunk stub skel now c st running).2.2 (checkIdx + 1)).1,
         (processOneChunk stub skel now c st running).2.1
           ++ (processChunksLoop stub flag skel now rest
              (processOneChunk stub skel now c st running).1
              (processOneChunk stub skel now c st running).2.2 (checkIdx + 1)).2.1,
         (processChunksLoop stub flag skel now rest
            (processOneChunk stub skel now c st running).1
            (processOneChunk stub skel now c st running).2.2 (checkIdx + 1)).2.2) := by
  rw [processChunksLoop, h]
  rfl

/-- Duplicate-free ids of the table restrict to any sorted filtered view. -/
theorem decomp_ids_nodup {all : List ChunkRow} {p : ChunkRow → Bool} {dec : List ChunkRow}
    (hn : (all.map fun r => r.id).Nodup) (hdecomp : sortByIndex (all.filter p) = dec) :
    (dec.map fun r => r.id).Nodup := by
  have h1 : List.Perm (sortByIndex (all.filter p)) (all.filter p) := sortByIndex_perm _
  rw [hdecomp] at h1
  have h2 : ((all.filter p).map fun r => r.id).Nodup :=
    ((List.filter_sublist all).map fun r => r.id).nodup hn
  exact (h1.map _).nodup_iff.mpr h2

/-- Freshness of the distinguished row's id in a duplicate-free decomposition. -/
theorem ids_fresh_of_nodup {done rest : List ChunkRow} {c : ChunkRow}
    (h : ((done ++ c :: rest).map fun r => r.id).Nodup) :
    (∀ r ∈ done, r.id ≠ c.id) ∧ ∀ r ∈ rest, r.id ≠ c.id := by
  rw [List.map_append, List.map_cons, List.nodup_append] at h
  obtain ⟨h1, h2, h3⟩ := h
  rw [List.nodup_cons] at h2
  constructor
  · intro r hr he
    exact h3 (List.mem_map_of_mem _ hr) (by simp [he])
  · intro r hr he
    exact h2.1 (he ▸ List.mem_map_of_mem _ hr)

/-- The head of the unprocessed segment sits at index `done.length`. -/
theorem decomp_head_idx (done : List ChunkRow) (c : ChunkRow) (rest : List ChunkRow)
    (hidx : (done ++ c :: rest).map (fun r => r.chunkIndex)
      = List.range (done.length + (c :: rest).length)) :
    c.chunkIndex = done.length := by
  rw [List.map_append, List.range_add] at hidx
  obtain ⟨-, h2⟩ := List.append_inj hidx (by simp)
  have h3 := congrArg List.head? h2
  simp [List.range_succ_eq_map] at h3
  exact h3

/-- A member of the sorted filtered view is a member of the table. -/
theorem mem_of_decomp {all : List ChunkRow} {p : ChunkRow → Bool} {dec : List ChunkRow}
    {c : ChunkRow} (hdecomp : sortByIndex (all.filter p) = dec) (hc : c ∈ dec) :
    c ∈ all := by
  have h1 : List.Perm (sortByIndex (all.filter p)) (all.filter p) := sortByIndex_perm _
  rw [hdecomp] at h1
  exact (List.filter_sublist all).mem ((h1.mem_iff).mp hc)

/-- An id-keyed update seen through the sorted filtered view rewrites
exactly the distinguished row. -/
theorem decomp_after_update {all : List ChunkRow} {p : ChunkRow → Bool}
    {done rest : List ChunkRow} {c : ChunkRow} (g : ChunkRow → ChunkRow)
    (hids : (all.map fun r => r.id).Nodup)
    (hdecomp : sortByIndex (all.filter p) = done ++ c :: rest)
    (hgp : ∀ r, p (g r) = p r) (hgi : ∀ r, (g r).chunkIndex = r.chunkIndex) :
    sortByIndex ((updateChunkRow all c.id g).filter p) = done ++ g c :: rest := by
  rw [sortByIndex_filter_updateChunkRow _ _ _ _ hgp hgi, hdecomp]
  have hfresh := ids_fresh_of_nodup (decomp_ids_nodup hids hdecomp)
  exact updateChunkRow_decomp done rest c g hfresh.1 hfresh.2

/-- One iteration of the chunk loop, fully evaluated against the
decomposition invariant: the block completes the distinguished row with the
stub's output for the accumulated context, stamps the job cursor, and emits
the ideal block events. -/
theorem processOneChunk_spec (stub : StubLLM) (skel : GlobalSkeleton) (now : Int)
    (c : ChunkRow) (st : JobState) (running : Nat)
    (done rest : List ChunkRow) (prior : List ChunkDelta)
    (hids : (st.chunks.map fun r => r.id).Nodup)
    (hdecomp : sortByIndex (st.chunks.filter fun r => decide (r.documentId = st.job.id))
      = done ++ c :: rest)
    (hidx : ((done ++ c :: rest).map fun r => r.chunkIndex)
      = List.range (done.length + (c :: rest).length))
    (hdone : done.map (fun r => r.chunkDelta) = prior.map some) :
    processOneChunk stub skel now c st running
      = (⟨{ st.job with currentChunk := c.chunkIndex + 1, updatedAt := now },
          updateChunkRow
            (updateChunkRow st.chunks c.id fun r => { r with status := .processing }) c.id
            fun r => (writeChunkComplete true r
              (stub.reconstruct c.chunkInputText c.chunkIndex st.job.numChunks skel
                st.job.lengthConfig (renderPriorDeltasSummary prior)).1
              (countWords (stub.reconstruct c.chunkInputText c.chunkIndex st.job.numChunks skel
                st.job.lengthConfig (renderPriorDeltasSummary prior)).1)
              (stub.reconstruct c.chunkInputText c.chunkIndex st.job.numChunks skel
                st.job.lengthConfig (renderPriorDeltasSummary prior)).2).row⟩,
         idealBlockEvents stub skel st.job.id st.job.numChunks st.job.lengthConfig.targetMid
           st.job.lengthConfig c prior running,
         running + countWords (stub.reconstruct c.chunkInputText c.chunkIndex st.job.numChunks
           skel st.job.lengthConfig (renderPriorDeltasSummary prior)).1) := by
  have hcin : c ∈ st.chunks := mem_of_decomp hdecomp (by simp)
  have hfind1 : st.chunks.find? (fun x => decide (x.id = c.id)) = some c :=
    find?_eq_of_nodup_mem hids hcin
  have hids1 : ((updateChunkRow st.chunks c.id fun r =>
        { r with status := ChunkStatus.processing }).map fun r => r.id)
      = st.chunks.map fun r => r.id :=
    updateChunkRow_map_id _ _ _ fun r => rfl
  have hmem1 : ({ c with status := ChunkStatus.processing })
      ∈ updateChunkRow st.chunks c.id fun r => { r with status := .processing } := by
    have hmm := List.mem_map_of_mem
      (fun r => if r.id = c.id then { r with status := ChunkStatus.processing } else r) hcin
    simpa [updateChunkRow] using hmm
  have hfind2 : (updateChunkRow st.chunks c.id fun r =>
        { r with status := ChunkStatus.processing }).find?
      (fun x => decide (x.id = c.id)) = some { c with status := ChunkStatus.processing } := by
    have hnod : ((updateChunkRow st.chunks c.id fun r =>
        { r with status := ChunkStatus.processing }).map fun r => r.id).Nodup := by
      rw [hids1]
      exact hids
    exact find?_eq_of_nodup_mem hnod hmem1
  have hdecomp1 : sortByIndex ((updateChunkRow st.chunks c.id fun r =>
        { r with status := ChunkStatus.processing }).filter
        fun r => decide (r.documentId = st.job.id))
      = done ++ ({ c with status := ChunkStatus.processing }) :: rest :=
    decomp_after_update _ hids hdecomp (fun r => rfl) fun r => rfl
  have hcidx : c.chunkIndex = done.length := decomp_head_idx done c rest hidx
  have hprior : getPriorDeltas (updateChunkRow st.chunks c.id fun r =>
        { r with status := ChunkStatus.processing })
      st.job.id c.chunkIndex = prior := by
    rw [hcidx]
    exact getPriorDeltas_decomp _ _ done (({ c with status := ChunkStatus.processing }) :: rest)
      prior hdecomp1 (by simpa using hidx) hdone
  simp only [processOneChunk, rowStatusBefore, hfind1, hfind2, hprior, Option.map_some',
    Option.getD_some]
  rfl

/-- The chunk loop under a never-set abort flag, characterized against the
reference semantics: it never aborts, preserves the id column and the job
identity fields, rewrites the unprocessed segment of the sorted view into
its ideal completion, and emits exactly the ideal run events. -/
theorem processChunksLoop_false_spec (stub : StubLLM) (skel : GlobalSkeleton) (now : Int)
    (mid : List ChunkRow) :
    ∀ (done later : List ChunkRow) (prior : List ChunkDelta) (st : JobState)
      (running checkIdx : Nat) (res : JobState × List Event × Bool),
      (st.chunks.map fun r => r.id).Nodup →
      sortByIndex (st.chunks.filter fun r => decide (r.documentId = st.job.id))
        = done ++ mid ++ later →
      ((done ++ mid ++ later).map fun r => r.chunkIndex)
        = List.range (done.length + mid.length + later.length) →
      done.map (fun r => r.chunkDelta) = prior.map some →
      res = processChunksLoop stub (fun _ => false) skel now mid st running checkIdx →
      res.2.2 = false
      ∧ res.1.chunks.map (fun r => r.id) = st.chunks.map (fun r => r.id)
      ∧ res.1.job.id = st.job.id
      ∧ res.1.job.numChunks = st.job.numChunks
      ∧ res.1.job.lengthConfig = st.job.lengthConfig
      ∧ res.1.job.status = st.job.status
      ∧ res.1.job.globalSkeleton = st.job.globalSkeleton
      ∧ sortByIndex (res.1.chunks.filter fun r => decide (r.documentId = st.job.id))
          = done ++ completeRows mid (idealOutputs stub skel st.job.lengthConfig
              st.job.numChunks mid prior) ++ later
      ∧ res.2.1 = idealRunEvents stub skel st.job.id st.job.numChunks
          st.job.lengthConfig.targetMid st.job.lengthConfig mid prior running := by
  induction mid with
  | nil =>
    intro done later prior st running checkIdx res hids hdecomp hidx hdone hres
    subst hres
    refine ⟨rfl, rfl, rfl, rfl, rfl, rfl, rfl, ?_, rfl⟩
    simpa [completeRows, idealOutputs] using hdecomp
  | cons c rest ih =>
    intro done later prior st running checkIdx res hids hdecomp hidx hdone hres
    have hdecomp' : sortByIndex (st.chunks.filter fun r => decide (r.documentId = st.job.id))
        = done ++ c :: (rest ++ later) := by
      simpa using hdecomp
    have hidx' : ((done ++ c :: (rest ++ later)).map fun r => r.chunkIndex)
        = List.range (done.length + (c :: (rest ++ later)).length) := by
      have harith : done.length + (c :: (rest ++ later)).length
          = done.length + (c :: rest).length + later.length := by
        simp
        omega
      rw [harith]
      simpa using hidx
    have hone := processOneChunk_spec stub skel now c st running done (rest ++ later) prior
      hids hdecomp' hidx' hdone
    subst hres
    rw [processChunksLoop_cons stub _ skel now c rest st running checkIdx rfl, hone]
    set R := stub.reconstruct c.chunkInputText c.chunkIndex st.job.numChunks skel
      st.job.lengthConfig (renderPriorDeltasSummary prior) with hR
    set st1 : JobState := ⟨{ st.job with currentChunk := c.chunkIndex + 1, updatedAt := now },
      updateChunkRow (updateChunkRow st.chunks c.id fun r => { r with status := .processing })
        c.id fun r => (writeChunkComplete true r R.1 (countWords R.1) R.2).row⟩ with hst1
    have hids1 : (st1.chunks.map fun r => r.id) = st.chunks.map fun r => r.id := by
      rw [hst1]
      rw [updateChunkRow_map_id _ c.id
        (fun r => (writeChunkComplete true r R.1 (countWords R.1) R.2).row) fun r => rfl]
      rw [updateChunkRow_map_id _ c.id
        (fun r => { r with status := ChunkStatus.processing }) fun r => rfl]
    have hidsN : (st1.chunks.map fun r => r.id).Nodup := by
      rw [hids1]
      exact hids
    have hmid1 : sortByIndex ((updateChunkRow st.chunks c.id fun r =>
          { r with status := ChunkStatus.processing }).filter
          fun r => decide (r.documentId = st.job.id))
        = done ++ ({ c with status := ChunkStatus.processing }) :: (rest ++ later) :=
      decomp_after_update _ hids hdecomp' (fun r => rfl) fun r => rfl
    have hids1' : ((updateChunkRow st.chunks c.id fun r =>
          { r with status := ChunkStatus.processing }).map fun r => r.id).Nodup := by
      rw [updateChunkRow_map_id _ c.id
        (fun r => { r with status := ChunkStatus.processing }) fun r => rfl]
      exact hids
    have hdecomp1 : sortByIndex (st1.chunks.filter fun r =>
          decide (r.documentId = st1.job.id))
        = (done ++ [completeRow c R]) ++ rest ++ later := by
      have h2 := decomp_after_update
        (fun r => (writeChunkComplete true r R.1 (countWords R.1) R.2).row)
        hids1' hmid1 (fun r => rfl) fun r => rfl
      rw [hst1]
      exact h2.trans (by simp [completeRow, writeChunkComplete])
    have hidx1 : (((done ++ [completeRow c R]) ++ rest ++ later).map fun r => r.chunkIndex)
        = List.range ((done ++ [completeRow c R]).length + rest.length + later.length) := by
      have harith : (done ++ [completeRow c R]).length + rest.length + later.length
          = done.length + (c :: rest).length + later.length := by
        simp
        omega
      rw [harith]
      have hshape : ((done ++ [completeRow c R]) ++ rest ++ later).map (fun r => r.chunkIndex)
          = (done ++ c :: rest ++ later).map fun r => r.chunkIndex := by
        simp [completeRow]
      rw [hshape]
      exact hidx
    have hdone1 : (done ++ [completeRow c R]).map (fun r => r.chunkDelta)
        = (prior ++ [R.2]).map some := by
      simp [hdone, completeRow]
    obtain ⟨ha1, ha2, ha3, ha4, ha5, ha6, ha7, ha8, ha9⟩ :=
      ih (done ++ [completeRow c R]) later (prior ++ [R.2]) st1
        (running + countWords R.1) (checkIdx + 1)
        (processChunksLoop stub (fun _ => false) skel now rest st1
          (running + countWords R.1) (checkIdx + 1))
        hidsN hdecomp1 hidx1 hdone1 rfl
    refine ⟨ha1, by rw [ha2, hids1], ha3, ha4, ha5, ha6, ha7, ?_, ?_⟩
    · rw [ha8]
      show (done ++ [completeRow c R]) ++ completeRows rest (idealOutputs stub skel
          st.job.lengthConfig st.job.numChunks rest (prior ++ [R.2])) ++ later
        = done ++ completeRows (c :: rest) (idealOutputs stub skel st.job.lengthConfig
            st.job.numChunks (c :: rest) prior) ++ later
      rw [idealOutputs]
      simp [completeRows]
    · rw [ha9]
      show idealBlockEvents stub skel st.job.id st.job.numChunks
            st.job.lengthConfig.targetMid st.job.lengthConfig c prior running
          ++ idealRunEvents stub skel st.job.id st.job.numChunks
            st.job.lengthConfig.targetMid st.job.lengthConfig rest (prior ++ [R.2])
            (running + countWords R.1)
        = idealRunEvents stub skel st.job.id st.job.numChunks
            st.job.lengthConfig.targetMid st.job.lengthConfig (c :: rest) prior running
      rw [idealRunEvents]

/-- A monotone abort flag first observed true at check `ft` splits the loop
into an uninterrupted run over the prefix guarded by earlier checks, plus
the abort observation — which happens exactly when some remaining check index
reaches `ft`. -/
theorem processChunksLoop_abort_split (stub : StubLLM) (skel : GlobalSkeleton) (now : Int)
    (ft : Nat) (mid : List ChunkRow) :
    ∀ (st : JobState) (running checkIdx : Nat),
    processChunksLoop stub (fun i => decide (ft ≤ i)) skel now mid st running checkIdx
      = ((processChunksLoop stub (fun _ => false) skel now (mid.take (ft - checkIdx)) st
            running checkIdx).1,
         (processChunksLoop stub (fun _ => false) skel now (mid.take (ft - checkIdx)) st
            running checkIdx).2.1,
         decide (0 < mid.length ∧ ft < checkIdx + mid.length)) := by
  induction mid with
  | nil =>
    intro st running checkIdx
    simp [processChunksLoop]
  | cons c rest ih =>
    intro st running checkIdx
    by_cases hft : ft ≤ checkIdx
    · have h0 : ft - checkIdx = 0 := by omega
      rw [h0, List.take_zero, processChunksLoop, processChunksLoop]
      have hcond : decide (0 < (c :: rest).length ∧ ft < checkIdx + (c :: rest).length)
          = true := by
        rw [decide_eq_true_eq]
        refine ⟨by simp, ?_⟩
        simp
        omega
      rw [hcond]
      simp [hft]
    · have hflag : decide (ft ≤ checkIdx) = false := by
        rw [decide_eq_false_iff_not]
        omega
      have htake : (c :: rest).take (ft - checkIdx) = c :: rest.take (ft - (checkIdx + 1)) := by
        have harith : ft - checkIdx = (ft - (checkIdx + 1)) + 1 := by omega
        rw [harith, List.take_succ_cons]
      rw [htake]
      rw [processChunksLoop_cons stub _ skel now c rest st running checkIdx hflag]
      rw [processChunksLoop_cons stub _ skel now c (rest.take (ft - (checkIdx + 1))) st
        running checkIdx rfl]
      rw [ih]
      have hd : decide (0 < rest.length ∧ ft < checkIdx + 1 + rest.length)
          = decide (0 < (c :: rest).length ∧ ft < checkIdx + (c :: rest).length) := by
        rw [decide_eq_decide]
        simp
        omega
      rw [hd]

/-- Splitting a conjunctive row filter. -/
theorem filter_and_split (chunks : List ChunkRow) (p q : ChunkRow → Prop)
    [DecidablePred p] [DecidablePred q] :
    (chunks.filter fun c => decide (p c ∧ q c))
      = ((chunks.filter fun c => decide (p c)).filter fun c => decide (q c)) := by
  rw [List.filter_filter]
  apply List.filter_congr
  intro c _
  simp [Bool.and_comm]

/-- `idealOutputs` yields one output per row. -/
theorem idealOutputs_length (stub : StubLLM) (skel : GlobalSkeleton) (cfg : LengthConfig)
    (n : Nat) (rows : List ChunkRow) :
    ∀ prior : List ChunkDelta, (idealOutputs stub skel cfg n rows prior).length
      = rows.length := by
  induction rows with
  | nil => intro prior; rfl
  | cons c rest ih => intro prior; simp [idealOutputs, ih]

/-- The committed outputs of the completed rows. -/
theorem completeRows_outputs (rows : List ChunkRow) :
    ∀ outs : List (String × ChunkDelta), outs.length = rows.length →
    (completeRows rows outs).map (fun c => c.chunkOutputText.getD "") = outs.map Prod.fst := by
  induction rows with
  | nil =>
    intro outs h
    cases outs with
    | nil => rfl
    | cons o os => simp at h
  | cons c rest ih =>
    intro outs h
    cases outs with
    | nil => simp at h
    | cons o os =>
      simp only [completeRows, List.zipWith_cons_cons, List.map_cons]
      have ht := ih os (by simpa using h)
      simp only [completeRows] at ht
      rw [ht]
      rfl

/-- Completed rows all carry `complete` status. -/
theorem completeRows_status (rows : List ChunkRow) :
    ∀ (outs : List (String × ChunkDelta)) (r : ChunkRow), r ∈ completeRows rows outs →
      r.status = .complete := by
  induction rows with
  | nil => intro outs r hr; simp [completeRows] at hr
  | cons c rest ih =>
    intro outs r hr
    cases outs with
    | nil => simp [completeRows] at hr
    | cons o os =>
      simp only [completeRows, List.zipWith_cons_cons, List.mem_cons] at hr
      rcases hr with rfl | hr
      · rfl
      · exact ih os r hr

/-- Completed rows keep the source rows' indices. -/
theorem completeRows_idx (rows : List ChunkRow) :
    ∀ outs : List (String × ChunkDelta), outs.length = rows.length →
    (completeRows rows outs).map (fun r => r.chunkIndex) = rows.map fun r => r.chunkIndex := by
  induction rows with
  | nil => intro outs h; rfl
  | cons c rest ih =>
    intro outs h
    cases outs with
    | nil => simp at h
    | cons o os =>
      simp only [completeRows, List.zipWith_cons_cons, List.map_cons]
      have ht := ih os (by simpa using h)
      simp only [completeRows] at ht
      rw [ht]
      rfl

/-- A produced warning is always a `warning` message for the job. -/
theorem warningCheck_isWarning (jobId k tm pf : Nat) :
    warningCheck jobId k tm pf = none
    ∨ ∃ a b c, warningCheck jobId k tm pf = some (.warning jobId a b c) := by
  unfold warningCheck
  split_ifs <;> simp

/-- The chunk index a `chunk_complete` event carries. -/
def eventChunkCompleteIndex : Event → Option Nat
  | .msg (.chunkComplete _ i _ _ _ _ _ _ _ _ _) => some i
  | _ => none

/-- Whether an event is a `job_aborted` broadcast. -/
def isJobAbortedEvent : Event → Bool
  | .msg (.jobAborted _ _ _ _ _) => true
  | _ => false

/-- The run events broadcast `chunk_complete` exactly once per processed
row, in order. -/
theorem idealRunEvents_chunkComplete (stub : StubLLM) (skel : GlobalSkeleton)
    (jobId n tm : Nat) (cfg : LengthConfig) (rows : List ChunkRow) :
    ∀ (prior : List ChunkDelta) (running : Nat),
    (idealRunEvents stub skel jobId n tm cfg rows prior running).filterMap
        eventChunkCompleteIndex
      = rows.map fun r => r.chunkIndex := by
  induction rows with
  | nil => intro prior running; rfl
  | cons c rest ih =>
    intro prior running
    simp only [idealRunEvents, idealBlockEvents, List.filterMap_append, List.filterMap_cons,
      eventChunkCompleteIndex, ih, List.map_cons]
    rcases warningCheck_isWarning jobId c.chunkIndex tm
        (projectedFinalWords (running + countWords (stub.reconstruct c.chunkInputText
          c.chunkIndex n skel cfg (renderPriorDeltasSummary prior)).1) c.chunkIndex n) with
      hw | ⟨a, b, d, hw⟩ <;>
      simp [hw, eventChunkCompleteIndex]

/-- The run events never broadcast `job_aborted`. -/
theorem idealRunEvents_no_abort (stub : StubLLM) (skel : GlobalSkeleton)
    (jobId n tm : Nat) (cfg : LengthConfig) (rows : List ChunkRow) :
    ∀ (prior : List ChunkDelta) (running : Nat) (e : Event),
    e ∈ idealRunEvents stub skel jobId n tm cfg rows prior running →
    isJobAbortedEvent e = false := by
  induction rows with
  | nil => intro prior running e he; simp [idealRunEvents] at he
  | cons c rest ih =>
    intro prior running e he
    simp only [idealRunEvents, idealBlockEvents] at he
    rcases warningCheck_isWarning jobId c.chunkIndex tm
        (projectedFinalWords (running + countWords (stub.reconstruct c.chunkInputText
          c.chunkIndex n skel cfg (renderPriorDeltasSummary prior)).1) c.chunkIndex n) with
      hw | ⟨a, b, d, hw⟩ <;>
      rw [hw] at he <;>
      simp only [Option.toList_some, Option.toList_none, List.map_cons, List.map_nil,
        List.nil_append, List.cons_append, List.mem_cons, List.mem_append,
        List.not_mem_nil, or_false, List.mem_singleton] at he
    · rcases he with rfl | rfl | rfl | rfl | rfl | he
      · rfl
      · rfl
      · rfl
      · rfl
      · rfl
      · exact ih _ _ e he
    · rcases he with rfl | rfl | rfl | rfl | rfl | rfl | he
      · rfl
      · rfl
      · rfl
      · rfl
      · rfl
      · rfl
      · exact ih _ _ e he

/-- Statuses written by the run events from pending rows step only forward. -/
theorem idealRunEvents_statusSet (stub : StubLLM) (skel : GlobalSkeleton)
    (jobId n tm : Nat) (cfg : LengthConfig) (rows : List ChunkRow)
    (hrows : ∀ c ∈ rows, c.status = .pending) :
    ∀ (prior : List ChunkDelta) (running : Nat) (cid : Nat) (b a : ChunkStatus),
    Event.statusSet cid b a ∈ idealRunEvents stub skel jobId n tm cfg rows prior running →
    (b = .pending ∧ a = .processing) ∨ (b = .processing ∧ a = .complete) := by
  induction rows with
  | nil => intro prior running cid b a he; simp [idealRunEvents] at he
  | cons c rest ihh =>
    intro prior running cid b a he
    simp only [idealRunEvents, idealBlockEvents] at he
    rcases warningCheck_isWarning jobId c.chunkIndex tm
        (projectedFinalWords (running + countWords (stub.reconstruct c.chunkInputText
          c.chunkIndex n skel cfg (renderPriorDeltasSummary prior)).1) c.chunkIndex n) with
      hw | ⟨x, y, z, hw⟩ <;>
      rw [hw] at he <;>
      simp only [Option.toList_some, Option.toList_none, List.map_cons, List.map_nil,
        List.nil_append, List.cons_append, List.mem_cons, List.mem_append,
        List.not_mem_nil, or_false, List.mem_singleton] at he
    · rcases he with he | he | he | he | he | he
      · cases he
        exact Or.inl ⟨hrows c (by simp), rfl⟩
      · cases he
      · cases he
        exact Or.inr ⟨rfl, rfl⟩
      · cases he
      · cases he
      · exact ihh (fun r hr => hrows r (by simp [hr])) _ _ cid b a he
    · rcases he with he | he | he | he | he | he | he
      · cases he
        exact Or.inl ⟨hrows c (by simp), rfl⟩
      · cases he
      · cases he
        exact Or.inr ⟨rfl, rfl⟩
      · cases he
      · cases he
      · cases he
      · exact ihh (fun r hr => hrows r (by simp [hr])) _ _ cid b a he

/-- Well-formedness of a job's chunk table: duplicate-free row ids and
contiguous indices 0..count-1 on the job's rows (as `startStreamingJob`
creates them). -/
def JobWF (st : JobState) : Prop :=
  (st.chunks.map fun r => r.id).Nodup
  ∧ ((sortByIndex (st.chunks.filter fun r => decide (r.documentId = st.job.id))).map
      fun r => r.chunkIndex)
    = List.range (sortByIndex (st.chunks.filter fun r =>
        decide (r.documentId = st.job.id))).length

/-- A job none of whose chunk rows has been processed yet. -/
def JobFresh (st : JobState) : Prop :=
  ∀ c ∈ st.chunks, c.documentId = st.job.id → c.status = .pending

/-- A full `processJobAsync` run under a never-set abort flag: the job ends
`complete`, the job's rows become exactly the ideal completion of the sorted
snapshot — independent of their previous outputs, deltas and statuses — and
the events are the skeleton phase (with the extractor always invoked), the
ideal run events, and the stitching/completion messages. -/
theorem processJobAsync_run_spec (stub : StubLLM) (now : Int) (st : JobState)
    (snap : List ChunkRow) (outs : List (String × ChunkDelta))
    (res : JobState × List Event)
    (hwf : JobWF st)
    (hsnap : snap = sortByIndex (st.chunks.filter fun r => decide (r.documentId = st.job.id)))
    (houts : outs = idealOutputs stub stub.skeleton st.job.lengthConfig st.job.numChunks snap [])
    (hres : res = processJobAsync stub (fun _ => false) now st) :
    res.1.job.status = .complete
    ∧ res.1.job.id = st.job.id
    ∧ sortByIndex (res.1.chunks.filter fun r => decide (r.documentId = st.job.id))
        = completeRows snap outs
    ∧ res.2 = [.msg (.progress st.job.id "skeleton_extraction"), Event.llmExtractSkeleton,
          .msg (.progress st.job.id "chunk_processing")]
        ++ idealRunEvents stub stub.skeleton st.job.id st.job.numChunks
            st.job.lengthConfig.targetMid st.job.lengthConfig snap [] 0
        ++ [.msg (.progress st.job.id "stitching"),
            .msg (.jobComplete st.job.id
              (stub.stitch stub.skeleton ((completeRows snap outs).map fun c =>
                (c.chunkOutputText.getD "", c.chunkDelta.getD default)))
              (countWords (stub.stitch stub.skeleton ((completeRows snap outs).map fun c =>
                (c.chunkOutputText.getD "", c.chunkDelta.getD default)))))] := by
  subst hsnap
  subst houts
  have hids := hwf.1
  have hidx0 := hwf.2
  set st2 : JobState := ⟨{ st.job with
    status := .chunkProcessing
    globalSkeleton := some stub.skeleton
    updatedAt := now }, st.chunks⟩ with hst2
  have hids2 : (st2.chunks.map fun r => r.id).Nodup := hids
  have hdecomp2 : sortByIndex (st2.chunks.filter fun r => decide (r.documentId = st2.job.id))
      = [] ++ sortByIndex (st.chunks.filter fun r => decide (r.documentId = st.job.id))
        ++ [] := by
    show sortByIndex (st.chunks.filter fun r => decide (r.documentId = st.job.id))
      = [] ++ sortByIndex (st.chunks.filter fun r => decide (r.documentId = st.job.id)) ++ []
    simp
  have hidx2 : (([] ++ sortByIndex (st.chunks.filter fun r =>
        decide (r.documentId = st.job.id)) ++ []).map fun r : ChunkRow => r.chunkIndex)
      = List.range (([] : List ChunkRow).length
          + (sortByIndex (st.chunks.filter fun r =>
              decide (r.documentId = st.job.id))).length
          + ([] : List ChunkRow).length) := by
    simp only [List.nil_append, List.append_nil, List.length_nil, Nat.zero_add, Nat.add_zero]
    exact hidx0
  obtain ⟨hb, hidsL, hjid, hjn, hjcfg, hjst, hjsk, hsorted, hevs⟩ :=
    processChunksLoop_false_spec stub stub.skeleton now
      (sortByIndex (st.chunks.filter fun r => decide (r.documentId = st.job.id))) [] [] []
      st2 0 1
      (processChunksLoop stub (fun _ => false) stub.skeleton now
        (sortByIndex (st.chunks.filter fun r => decide (r.documentId = st.job.id))) st2 0 1)
      hids2 hdecomp2 hidx2 rfl rfl
  set L := processChunksLoop stub (fun _ => false) stub.skeleton now
    (sortByIndex (st.chunks.filter fun r => decide (r.documentId = st.job.id))) st2 0 1 with hL
  have hsorted' : sortByIndex (L.1.chunks.filter fun r => decide (r.documentId = st.job.id))
      = completeRows (sortByIndex (st.chunks.filter fun r => decide (r.documentId = st.job.id))) (idealOutputs stub stub.skeleton st.job.lengthConfig st.job.numChunks (sortByIndex (st.chunks.filter fun r => decide (r.documentId = st.job.id))) []) := by
    have h1 := hsorted
    rw [List.nil_append, List.append_nil] at h1
    exact h1
  have hcompleted : sortByIndex (L.1.chunks.filter fun c =>
        decide (c.documentId = st.job.id ∧ c.status = ChunkStatus.complete))
      = completeRows (sortByIndex (st.chunks.filter fun r => decide (r.documentId = st.job.id))) (idealOutputs stub stub.skeleton st.job.lengthConfig st.job.numChunks (sortByIndex (st.chunks.filter fun r => decide (r.documentId = st.job.id))) []) := by
    rw [filter_and_split]
    have hperm1 : List.Perm (L.1.chunks.filter fun r => decide (r.documentId = st.job.id))
        (completeRows (sortByIndex (st.chunks.filter fun r => decide (r.documentId = st.job.id))) (idealOutputs stub stub.skeleton st.job.lengthConfig st.job.numChunks (sortByIndex (st.chunks.filter fun r => decide (r.documentId = st.job.id))) [])) := by
      rw [← hsorted']
      exact (sortByIndex_perm _).symm
    have hperm2 := hperm1.filter fun r => decide (r.status = ChunkStatus.complete)
    have hall : (completeRows (sortByIndex (st.chunks.filter fun r => decide (r.documentId = st.job.id))) (idealOutputs stub stub.skeleton st.job.lengthConfig st.job.numChunks (sortByIndex (st.chunks.filter fun r => decide (r.documentId = st.job.id))) [])).filter (fun r => decide (r.status = ChunkStatus.complete))
        = completeRows (sortByIndex (st.chunks.filter fun r => decide (r.documentId = st.job.id))) (idealOutputs stub stub.skeleton st.job.lengthConfig st.job.numChunks (sortByIndex (st.chunks.filter fun r => decide (r.documentId = st.job.id))) []) := by
      apply List.filter_eq_self.mpr
      intro r hr
      simpa using completeRows_status (sortByIndex (st.chunks.filter fun r => decide (r.documentId = st.job.id))) (idealOutputs stub stub.skeleton st.job.lengthConfig st.job.numChunks (sortByIndex (st.chunks.filter fun r => decide (r.documentId = st.job.id))) []) r hr
    rw [hall] at hperm2
    apply sortByIndex_eq_of_perm_strict hperm2
    have houtlen : (idealOutputs stub stub.skeleton st.job.lengthConfig st.job.numChunks (sortByIndex (st.chunks.filter fun r => decide (r.documentId = st.job.id))) []).length = (sortByIndex (st.chunks.filter fun r => decide (r.documentId = st.job.id))).length := by
      exact idealOutputs_length _ _ _ _ _ _
    have hidxc : (completeRows (sortByIndex (st.chunks.filter fun r => decide (r.documentId = st.job.id))) (idealOutputs stub stub.skeleton st.job.lengthConfig st.job.numChunks (sortByIndex (st.chunks.filter fun r => decide (r.documentId = st.job.id))) [])).map (fun r => r.chunkIndex)
        = List.range (sortByIndex (st.chunks.filter fun r => decide (r.documentId = st.job.id))).length := by
      rw [completeRows_idx (sortByIndex (st.chunks.filter fun r => decide (r.documentId = st.job.id))) (idealOutputs stub stub.skeleton st.job.lengthConfig st.job.numChunks (sortByIndex (st.chunks.filter fun r => decide (r.documentId = st.job.id))) []) houtlen]
      simpa using hidx0
    have hpw : ((completeRows (sortByIndex (st.chunks.filter fun r => decide (r.documentId = st.job.id))) (idealOutputs stub stub.skeleton st.job.lengthConfig st.job.numChunks (sortByIndex (st.chunks.filter fun r => decide (r.documentId = st.job.id))) [])).map fun r => r.chunkIndex).Pairwise (· < ·) := by
      rw [hidxc]
      exact List.pairwise_lt_range _
    exact List.pairwise_map.mp hpw
  have hstep : processJobAsync stub (fun _ => false) now st
      = (if L.2.2 = true
         then ((handleAbort now L.1).1,
           ([Event.msg (.progress st.job.id "skeleton_extraction"), Event.llmExtractSkeleton]
             ++ [Event.msg (.progress st.job.id "chunk_processing")] ++ L.2.1)
             ++ (handleAbort now L.1).2)
         else
           (⟨{ L.1.job with
                finalOutput := some (stub.stitch stub.skeleton ((sortByIndex
                  (L.1.chunks.filter fun c => decide (c.documentId = st.job.id
                    ∧ c.status = ChunkStatus.complete))).map fun c =>
                  (c.chunkOutputText.getD "", c.chunkDelta.getD default)))
                finalWordCount := some (countWords (stub.stitch stub.skeleton ((sortByIndex
                  (L.1.chunks.filter fun c => decide (c.documentId = st.job.id
                    ∧ c.status = ChunkStatus.complete))).map fun c =>
                  (c.chunkOutputText.getD "", c.chunkDelta.getD default))))
                status := .complete
                updatedAt := now }, L.1.chunks⟩,
            ([Event.msg (.progress st.job.id "skeleton_extraction"), Event.llmExtractSkeleton]
              ++ [Event.msg (.progress st.job.id "chunk_processing")] ++ L.2.1)
              ++ [Event.msg (.progress st.job.id "stitching"),
                  Event.msg (.jobComplete st.job.id
                    (stub.stitch stub.skeleton ((sortByIndex
                      (L.1.chunks.filter fun c => decide (c.documentId = st.job.id
                        ∧ c.status = ChunkStatus.complete))).map fun c =>
                      (c.chunkOutputText.getD "", c.chunkDelta.getD default)))
                    (countWords (stub.stitch stub.skeleton ((sortByIndex
                      (L.1.chunks.filter fun c => decide (c.documentId = st.job.id
                        ∧ c.status = ChunkStatus.complete))).map fun c =>
                      (c.chunkOutputText.getD "", c.chunkDelta.getD default)))))])) := rfl
  subst hres
  rw [hstep, hb]
  simp only [Bool.false_eq_true, if_false]
  refine ⟨trivial, by simpa [hst2] using hjid, ?_, ?_⟩
  · exact hsorted'
  · rw [hcompleted]
    have hevs' : L.2.1 = idealRunEvents stub stub.skeleton st.job.id st.job.numChunks
        st.job.lengthConfig.targetMid st.job.lengthConfig (sortByIndex (st.chunks.filter fun r => decide (r.documentId = st.job.id))) [] 0 := hevs
    rw [hevs']
    simp

/-! ## Resume: the pristine reference state and full reprocessing -/

/-- The created form of a chunk row: `startStreamingJob` inserts every row
with `pending` status and null output, word-count and delta columns; the
reset keeps the immutable columns (ids, index, input text and targets). -/
def resetRow (c : ChunkRow) : ChunkRow :=
  { c with
    chunkOutputText := none
    actualWords := none
    chunkDelta := none
    status := .pending }

/-- The job state as it stood before any chunk work was performed: every
chunk row reset to its created form. -/
def pristineState (st : JobState) : JobState :=
  ⟨st.job, st.chunks.map resetRow⟩

/-- The sorted document view of the reset table is the reset of the sorted
document view. -/
theorem pristine_view (l : List ChunkRow) (jid : Nat) :
    sortByIndex ((l.map resetRow).filter fun c => decide (c.documentId = jid))
      = (sortByIndex (l.filter fun c => decide (c.documentId = jid))).map resetRow := by
  rw [List.filter_map]
  have hp : ((fun c => decide (c.documentId = jid)) ∘ resetRow)
      = fun c : ChunkRow => decide (c.documentId = jid) := rfl
  rw [hp]
  exact insertionSort_map_key resetRow (fun r => rfl) _

/-- The reference outputs only read the immutable columns, so they are
invariant under the reset. -/
theorem idealOutputs_map_reset (stub : StubLLM) (skel : GlobalSkeleton) (cfg : LengthConfig)
    (n : Nat) (rows : List ChunkRow) :
    ∀ prior : List ChunkDelta,
      idealOutputs stub skel cfg n (rows.map resetRow) prior
        = idealOutputs stub skel cfg n rows prior := by
  induction rows with
  | nil => intro prior; rfl
  | cons c rest ih =>
    intro prior
    simp only [List.map_cons, idealOutputs, resetRow]
    rw [ih]

/-- Completion overwrites exactly the columns the reset clears. -/
theorem completeRows_map_reset (rows : List ChunkRow) :
    ∀ outs : List (String × ChunkDelta),
      completeRows (rows.map resetRow) outs = completeRows rows outs := by
  induction rows with
  | nil => intro outs; rfl
  | cons c rest ih =>
    intro outs
    cases outs with
    | nil => rfl
    | cons o os =>
      simp only [List.map_cons, completeRows, List.zipWith_cons_cons, List.cons.injEq]
      exact ⟨rfl, by simpa [completeRows] using ih os⟩

/-- The reset preserves well-formedness of the chunk table. -/
theorem jobWF_pristineState (st : JobState) (hwf : JobWF st) : JobWF (pristineState st) := by
  obtain ⟨h1, h2⟩ := hwf
  refine ⟨?_, ?_⟩
  · show ((st.chunks.map resetRow).map fun r => r.id).Nodup
    have hm : (st.chunks.map resetRow).map (fun r => r.id) = st.chunks.map fun r => r.id := by
      rw [List.map_map]
      rfl
    rw [hm]
    exact h1
  · show (sortByIndex ((st.chunks.map resetRow).filter fun r =>
        decide (r.documentId = st.job.id))).map (fun r => r.chunkIndex)
      = List.range (sortByIndex ((st.chunks.map resetRow).filter fun r =>
          decide (r.documentId = st.job.id))).length
    rw [pristine_view, List.map_map, List.length_map]
    have hc : ((fun r => r.chunkIndex) ∘ resetRow) = fun r : ChunkRow => r.chunkIndex := rfl
    rw [hc]
    exact h2

/-- The run events invoke the reconstructor on every processed row. -/
theorem idealRunEvents_reconstruct_mem (stub : StubLLM) (skel : GlobalSkeleton)
    (jobId n tm : Nat) (cfg : LengthConfig) (rows : List ChunkRow) :
    ∀ (prior : List ChunkDelta) (running : Nat) (c : ChunkRow), c ∈ rows →
      Event.llmReconstruct c.chunkIndex
        ∈ idealRunEvents stub skel jobId n tm cfg rows prior running := by
  induction rows with
  | nil =>
    intro prior running c hc
    cases hc
  | cons d rest ih =>
    intro prior running c hc
    simp only [idealRunEvents]
    rcases List.mem_cons.mp hc with rfl | hc'
    · refine List.mem_append_left _ ?_
      simp [idealBlockEvents]
    · exact List.mem_append_right _ (ih _ _ c hc')

/-! ## C1: resume — what the code actually does -/

/-- A deterministic stub for concrete runs: a fixed skeleton, every
reconstruction returns the single word "a" with an empty delta, and
stitching joins the chunk outputs. -/
def demoStub : StubLLM :=
  { skeleton := ⟨"s"⟩
    reconstruct := fun _ _ _ _ _ _ => ("a", ⟨[], [], [], []⟩)
    stitch := fun _ ps => String.intercalate "\n\n" (ps.map Prod.fst) }

/-- Chunk 0 of the interrupted demo job: already complete, with a stored
output and delta. -/
def resumedRow0 : ChunkRow :=
  { id := 20, documentId := 1, chunkIndex := 0, chunkInputText := "i0", chunkInputWords := 2
    chunkOutputText := some "done0", actualWords := some 1, targetWords := 2, minWords := 1
    maxWords := 3, chunkDelta := some ⟨["c0"], ["t0"], [], []⟩, status := .complete }

/-- Chunk 1 of the interrupted demo job: still pending. -/
def resumedRow1 : ChunkRow :=
  { id := 21, documentId := 1, chunkIndex := 1, chunkInputText := "i1", chunkInputWords := 2
    chunkOutputText := none, actualWords := none, targetWords := 2, minWords := 1
    maxWords := 3, chunkDelta := none, status := .pending }

/-- The interrupted demo job: stopped after chunk 0 completed, with the
skeleton persisted and the cursor at chunk 1. -/
def resumedJob : JobRow :=
  { id := 1, originalText := "i0 i1", wordCount := 4, status := .chunkProcessing
    globalSkeleton := some ⟨"s"⟩, finalOutput := none, finalWordCount := none
    lengthConfig := sampleLengthConfig, numChunks := 2, currentChunk := 1, updatedAt := 0 }

/-- The interrupted demo state (skeleton present, chunk 0 complete,
chunk 1 pending). -/
def resumedState : JobState := ⟨resumedJob, [resumedRow0, resumedRow1]⟩

/-- C1 counterexample: resuming the interrupted job re-runs the skeleton
extractor although a skeleton is persisted, and re-invokes the reconstructor
on chunk 0 although chunk 0 is already complete — `processJobAsync` never
reads the stored skeleton and selects the job's chunk rows without any
status filter. -/
theorem claim_C1_counterexample :
    resumedState.job.globalSkeleton.isSome = true
    ∧ resumedRow0.status = .complete
    ∧ resumedState.job.currentChunk = 1
    ∧ Event.llmExtractSkeleton ∈ (resumeJob demoStub (fun _ => false) 0 false resumedState).2
    ∧ Event.llmReconstruct 0 ∈ (resumeJob demoStub (fun _ => false) 0 false resumedState).2 := by
  decide

/-- C1 (amended): resume on an existing, non-complete, non-running job hands
the whole job back to `processJobAsync`, which always re-runs the extractor
and reprocesses every chunk of the job (complete chunks included); since the
stub is deterministic and regeneration reads only the immutable chunk
columns, the final chunk set nevertheless equals that of an uninterrupted
run from the pristine state. -/
theorem claim_C1_resume_reprocesses (stub : StubLLM) (now : Int) (st : JobState)
    (hwf : JobWF st) (hnc : ¬ st.job.status = .complete) :
    Event.llmExtractSkeleton ∈ (resumeJob stub (fun _ => false) now false st).2
    ∧ (∀ c ∈ st.chunks, c.documentId = st.job.id →
        Event.llmReconstruct c.chunkIndex ∈ (resumeJob stub (fun _ => false) now false st).2)
    ∧ (resumeJob stub (fun _ => false) now false st).1.job.status = .complete
    ∧ sortByIndex ((resumeJob stub (fun _ => false) now false st).1.chunks.filter
          fun c => decide (c.documentId = st.job.id))
      = sortByIndex ((processJobAsync stub (fun _ => false) now (pristineState st)).1.chunks.filter
          fun c => decide (c.documentId = st.job.id)) := by
  have hr : resumeJob stub (fun _ => false) now false st
      = ((processJobAsync stub (fun _ => false) now st).1,
         .msg (.jobResumed st.job.id st.job.currentChunk st.job.numChunks)
           :: (processJobAsync stub (fun _ => false) now st).2) := by
    unfold resumeJob
    rw [if_neg hnc]
    rfl
  obtain ⟨hA, hB, hC, hD⟩ := processJobAsync_run_spec stub now st _ _ _ hwf rfl rfl rfl
  obtain ⟨hA2, hB2, hC2, hD2⟩ :=
    processJobAsync_run_spec stub now (pristineState st) _ _ _ (jobWF_pristineState st hwf)
      rfl rfl rfl
  refine ⟨?_, ?_, ?_, ?_⟩
  · rw [hr]
    show Event.llmExtractSkeleton
      ∈ _ :: (processJobAsync stub (fun _ => false) now st).2
    apply List.mem_cons_of_mem
    rw [hD]
    apply List.mem_append_left
    simp
  · intro c hc hdoc
    have hcsnap : c ∈ sortByIndex (st.chunks.filter fun r =>
        decide (r.documentId = st.job.id)) := by
      apply (sortByIndex_perm _).mem_iff.mpr
      exact List.mem_filter.mpr ⟨hc, by simpa using hdoc⟩
    have hmem := idealRunEvents_reconstruct_mem stub stub.skeleton st.job.id st.job.numChunks
      st.job.lengthConfig.targetMid st.job.lengthConfig _ [] 0 c hcsnap
    rw [hr]
    show Event.llmReconstruct c.chunkIndex
      ∈ _ :: (processJobAsync stub (fun _ => false) now st).2
    apply List.mem_cons_of_mem
    rw [hD]
    exact List.mem_append_left _ (List.mem_append_right _ hmem)
  · rw [hr]
    exact hA
  · rw [hr]
    refine hC.trans (Eq.trans ?_ hC2.symm)
    have hsnap2 : sortByIndex ((pristineState st).chunks.filter fun r =>
          decide (r.documentId = (pristineState st).job.id))
        = (sortByIndex (st.chunks.filter fun r =>
            decide (r.documentId = st.job.id))).map resetRow :=
      pristine_view st.chunks st.job.id
    rw [hsnap2, idealOutputs_map_reset, completeRows_map_reset]
    rfl

/-- C1 witness: the interrupted demo state is well-formed and not complete,
and resuming it re-runs the skeleton extractor. -/
theorem claim_C1_resume_reprocesses_witness :
    JobWF resumedState ∧ ¬ resumedState.job.status = JobStatus.complete
    ∧ Event.llmExtractSkeleton ∈ (resumeJob demoStub (fun _ => false) 0 false resumedState).2 :=
  ⟨⟨by decide, by decide⟩, by decide,
   (claim_C1_resume_reprocesses demoStub 0 resumedState ⟨by decide, by decide⟩ (by decide)).1⟩

/-! ## C8: chunk statuses do not only move forward -/

/-- The demo job before any chunk work: both rows pending with empty output
columns. -/
def freshState : JobState := pristineState resumedState

/-- C8 counterexample: the status writes are not forward-only — resuming the
interrupted job rewrites the already-complete chunk 0 back to `processing`
(the chunk loop marks every selected row `processing`, with no status
filter on the selection). -/
theorem claim_C8_counterexample :
    resumedRow0 ∈ resumedState.chunks
    ∧ resumedRow0.status = .complete
    ∧ Event.statusSet resumedRow0.id .complete .processing
        ∈ (resumeJob demoStub (fun _ => false) 0 false resumedState).2 := by
  decide

/-- C8 (amended): on a run over a fresh chunk table (all of the job's rows
still `pending`) every persisted status write steps forward — it is either
`pending → processing` or `processing → complete`; the forward-only
invariant holds for fresh runs but not across `resumeJob`, which rewrites
complete chunks back to `processing`. -/
theorem claim_C8_forward_only_on_fresh_runs (stub : StubLLM) (now : Int) (st : JobState)
    (hwf : JobWF st) (hfresh : JobFresh st) (cid : Nat) (b a : ChunkStatus)
    (hmem : Event.statusSet cid b a ∈ (processJobAsync stub (fun _ => false) now st).2) :
    (b = .pending ∧ a = .processing) ∨ (b = .processing ∧ a = .complete) := by
  obtain ⟨-, -, -, hD⟩ := processJobAsync_run_spec stub now st _ _ _ hwf rfl rfl rfl
  have hpend : ∀ c ∈ sortByIndex (st.chunks.filter fun r =>
      decide (r.documentId = st.job.id)), c.status = ChunkStatus.pending := by
    intro c hc
    have hc1 : c ∈ st.chunks.filter fun r => decide (r.documentId = st.job.id) :=
      (sortByIndex_perm _).mem_iff.mp hc
    have hc2 := List.mem_filter.mp hc1
    exact hfresh c hc2.1 (by simpa using hc2.2)
  rw [hD] at hmem
  rcases List.mem_append.mp hmem with hHI | hT
  · rcases List.mem_append.mp hHI with hH | hI
    · simp at hH
    · exact idealRunEvents_statusSet stub stub.skeleton st.job.id st.job.numChunks
        st.job.lengthConfig.targetMid st.job.lengthConfig _ hpend [] 0 cid b a hI
  · simp at hT

/-- C8 witness: a fresh run of the demo job writes `pending → processing` on
chunk 0, and the amended invariant classifies it. -/
theorem claim_C8_forward_only_on_fresh_runs_witness :
    JobWF freshState
    ∧ (∀ c ∈ freshState.chunks, c.documentId = freshState.job.id
        → c.status = ChunkStatus.pending)
    ∧ Event.statusSet 20 ChunkStatus.pending ChunkStatus.processing
        ∈ (processJobAsync demoStub (fun _ => false) 0 freshState).2
    ∧ ((ChunkStatus.pending = ChunkStatus.pending
          ∧ ChunkStatus.processing = ChunkStatus.processing)
       ∨ (ChunkStatus.pending = ChunkStatus.processing
          ∧ ChunkStatus.processing = ChunkStatus.complete)) :=
  ⟨⟨by decide, by decide⟩, by decide, by decide,
   claim_C8_forward_only_on_fresh_runs demoStub 0 freshState ⟨by decide, by decide⟩
     (by exact (by decide : ∀ c ∈ freshState.chunks, c.documentId = freshState.job.id
        → c.status = ChunkStatus.pending))
     20 ChunkStatus.pending ChunkStatus.processing (by decide)⟩

/-! ## C2: the abort window -/

/-- An interrupted `processJobAsync` run.  The cooperative abort flag is
monotone (once `abortJob` sets it, it stays set); a flag whose reads turn
true from check `ft` on (`flag = fun i => decide (ft ≤ i)`, with
`1 ≤ ft ≤` the number of the job's chunks, i.e. the abort is observed at one
of the per-chunk checks): the run completes exactly the chunks before the
check, reaches `aborted`, and closes with the `job_aborted` broadcast
carrying the completed count and the joined completed outputs. -/
theorem processJobAsync_abort_spec (stub : StubLLM) (now : Int) (st : JobState) (ft : Nat)
    (res : JobState × List Event)
    (hwf : JobWF st) (hfresh : JobFresh st)
    (h1 : 1 ≤ ft)
    (h2 : ft ≤ (sortByIndex (st.chunks.filter fun r => decide (r.documentId = st.job.id))).length)
    (hres : res = processJobAsync stub (fun i => decide (ft ≤ i)) now st) :
    res.1.job.status = .aborted
    ∧ res.1.job.id = st.job.id
    ∧ res.1.job.numChunks = st.job.numChunks
    ∧ sortByIndex (res.1.chunks.filter fun c =>
          decide (c.documentId = st.job.id ∧ c.status = ChunkStatus.complete))
        = completeRows ((sortByIndex (st.chunks.filter fun r => decide (r.documentId = st.job.id))).take (ft - 1))
            (idealOutputs stub stub.skeleton st.job.lengthConfig st.job.numChunks
              ((sortByIndex (st.chunks.filter fun r => decide (r.documentId = st.job.id))).take (ft - 1)) [])
    ∧ res.2 = [Event.msg (.progress st.job.id "skeleton_extraction"), Event.llmExtractSkeleton,
          Event.msg (.progress st.job.id "chunk_processing")]
        ++ idealRunEvents stub stub.skeleton st.job.id st.job.numChunks
            st.job.lengthConfig.targetMid st.job.lengthConfig ((sortByIndex (st.chunks.filter fun r => decide (r.documentId = st.job.id))).take (ft - 1)) [] 0
        ++ [Event.msg (.jobAborted st.job.id (ft - 1) st.job.numChunks
            (String.intercalate "\n\n"
              ((idealOutputs stub stub.skeleton st.job.lengthConfig st.job.numChunks
                ((sortByIndex (st.chunks.filter fun r => decide (r.documentId = st.job.id))).take (ft - 1)) []).map Prod.fst))
            (countWords (String.intercalate "\n\n"
              ((idealOutputs stub stub.skeleton st.job.lengthConfig st.job.numChunks
                ((sortByIndex (st.chunks.filter fun r => decide (r.documentId = st.job.id))).take (ft - 1)) []).map Prod.fst))))] := by
  have hids := hwf.1
  have hidx0 := hwf.2
  set st2 : JobState := ⟨{ st.job with
    status := .chunkProcessing
    globalSkeleton := some stub.skeleton
    updatedAt := now }, st.chunks⟩ with hst2
  have hids2 : (st2.chunks.map fun r => r.id).Nodup := hids
  have hflag0eq : decide (ft ≤ 0) = false := by
    rw [decide_eq_false_iff_not]
    omega
  have hcond : decide (0 < (sortByIndex (st.chunks.filter fun r => decide (r.documentId = st.job.id))).length ∧ ft < 1 + (sortByIndex (st.chunks.filter fun r => decide (r.documentId = st.job.id))).length) = true := by
    rw [decide_eq_true_eq]
    exact ⟨by omega, by omega⟩
  have hsplit := processChunksLoop_abort_split stub stub.skeleton now ft
    (sortByIndex (st.chunks.filter fun r => decide (r.documentId = st.job.id))) st2 0 1
  have hL2 : processChunksLoop stub (fun i => decide (ft ≤ i)) stub.skeleton now
      (sortByIndex (st.chunks.filter fun r => decide (r.documentId = st.job.id))) st2 0 1
      = ((processChunksLoop stub (fun _ => false) stub.skeleton now
            ((sortByIndex (st.chunks.filter fun r => decide (r.documentId = st.job.id))).take (ft - 1)) st2 0 1).1,
         (processChunksLoop stub (fun _ => false) stub.skeleton now
            ((sortByIndex (st.chunks.filter fun r => decide (r.documentId = st.job.id))).take (ft - 1)) st2 0 1).2.1,
         true) := by
    rw [hsplit, hcond]
  have hdecomp2 : sortByIndex (st2.chunks.filter fun r => decide (r.documentId = st2.job.id))
      = [] ++ (sortByIndex (st.chunks.filter fun r => decide (r.documentId = st.job.id))).take (ft - 1) ++ (sortByIndex (st.chunks.filter fun r => decide (r.documentId = st.job.id))).drop (ft - 1) := by
    show (sortByIndex (st.chunks.filter fun r => decide (r.documentId = st.job.id))) = [] ++ (sortByIndex (st.chunks.filter fun r => decide (r.documentId = st.job.id))).take (ft - 1) ++ (sortByIndex (st.chunks.filter fun r => decide (r.documentId = st.job.id))).drop (ft - 1)
    rw [List.nil_append, List.take_append_drop]
  have hidx2 : (([] ++ (sortByIndex (st.chunks.filter fun r => decide (r.documentId = st.job.id))).take (ft - 1) ++ (sortByIndex (st.chunks.filter fun r => decide (r.documentId = st.job.id))).drop (ft - 1)).map
        fun r : ChunkRow => r.chunkIndex)
      = List.range (([] : List ChunkRow).length + ((sortByIndex (st.chunks.filter fun r => decide (r.documentId = st.job.id))).take (ft - 1)).length
          + ((sortByIndex (st.chunks.filter fun r => decide (r.documentId = st.job.id))).drop (ft - 1)).length) := by
    simp only [List.nil_append, List.length_nil, Nat.zero_add]
    rw [List.take_append_drop]
    have hlen : ((sortByIndex (st.chunks.filter fun r => decide (r.documentId = st.job.id))).take (ft - 1)).length + ((sortByIndex (st.chunks.filter fun r => decide (r.documentId = st.job.id))).drop (ft - 1)).length
        = (sortByIndex (st.chunks.filter fun r => decide (r.documentId = st.job.id))).length := by
      rw [List.length_take, List.length_drop]
      omega
    rw [hlen]
    exact hidx0
  obtain ⟨hb, hidsF, hjid, hjn, hjcfg, hjst, hjsk, hsorted, hevs⟩ :=
    processChunksLoop_false_spec stub stub.skeleton now ((sortByIndex (st.chunks.filter fun r => decide (r.documentId = st.job.id))).take (ft - 1))
      [] ((sortByIndex (st.chunks.filter fun r => decide (r.documentId = st.job.id))).drop (ft - 1)) [] st2 0 1
      (processChunksLoop stub (fun _ => false) stub.skeleton now
        ((sortByIndex (st.chunks.filter fun r => decide (r.documentId = st.job.id))).take (ft - 1)) st2 0 1)
      hids2 hdecomp2 hidx2 rfl rfl
  set F := processChunksLoop stub (fun _ => false) stub.skeleton now
    ((sortByIndex (st.chunks.filter fun r => decide (r.documentId = st.job.id))).take (ft - 1)) st2 0 1 with hF
  have hjid2 : F.1.job.id = st.job.id := by simpa [hst2] using hjid
  have hjn2 : F.1.job.numChunks = st.job.numChunks := by simpa [hst2] using hjn
  have hsorted2 : sortByIndex (F.1.chunks.filter fun r => decide (r.documentId = st.job.id))
      = completeRows ((sortByIndex (st.chunks.filter fun r => decide (r.documentId = st.job.id))).take (ft - 1))
          (idealOutputs stub stub.skeleton st.job.lengthConfig st.job.numChunks
            ((sortByIndex (st.chunks.filter fun r => decide (r.documentId = st.job.id))).take (ft - 1)) [])
        ++ (sortByIndex (st.chunks.filter fun r => decide (r.documentId = st.job.id))).drop (ft - 1) := by
    have hx := hsorted
    rw [List.nil_append] at hx
    exact hx
  have hevs2 : F.2.1 = idealRunEvents stub stub.skeleton st.job.id st.job.numChunks
      st.job.lengthConfig.targetMid st.job.lengthConfig ((sortByIndex (st.chunks.filter fun r => decide (r.documentId = st.job.id))).take (ft - 1)) [] 0 := hevs
  have hfreshSnap : ∀ r ∈ (sortByIndex (st.chunks.filter fun r => decide (r.documentId = st.job.id))), r.status = ChunkStatus.pending := by
    intro r hr
    have hr1 : r ∈ st.chunks.filter fun c => decide (c.documentId = st.job.id) :=
      (sortByIndex_perm _).mem_iff.mp hr
    have hr2 := List.mem_filter.mp hr1
    exact hfresh r hr2.1 (by simpa using hr2.2)
  have houtlen : (idealOutputs stub stub.skeleton st.job.lengthConfig st.job.numChunks
      ((sortByIndex (st.chunks.filter fun r => decide (r.documentId = st.job.id))).take (ft - 1)) []).length = ((sortByIndex (st.chunks.filter fun r => decide (r.documentId = st.job.id))).take (ft - 1)).length :=
    idealOutputs_length _ _ _ _ _ _
  have hmt : (((sortByIndex (st.chunks.filter fun r => decide (r.documentId = st.job.id))).take (ft - 1)).map fun r => r.chunkIndex) = List.range (ft - 1) := by
    rw [List.map_take, hidx0, List.take_range, Nat.min_eq_left (by omega)]
  have hcompleted : sortByIndex (F.1.chunks.filter fun c =>
        decide (c.documentId = st.job.id ∧ c.status = ChunkStatus.complete))
      = completeRows ((sortByIndex (st.chunks.filter fun r => decide (r.documentId = st.job.id))).take (ft - 1))
          (idealOutputs stub stub.skeleton st.job.lengthConfig st.job.numChunks
            ((sortByIndex (st.chunks.filter fun r => decide (r.documentId = st.job.id))).take (ft - 1)) []) := by
    rw [filter_and_split]
    have hperm1 : List.Perm (F.1.chunks.filter fun r => decide (r.documentId = st.job.id))
        (completeRows ((sortByIndex (st.chunks.filter fun r => decide (r.documentId = st.job.id))).take (ft - 1))
            (idealOutputs stub stub.skeleton st.job.lengthConfig st.job.numChunks
              ((sortByIndex (st.chunks.filter fun r => decide (r.documentId = st.job.id))).take (ft - 1)) [])
          ++ (sortByIndex (st.chunks.filter fun r => decide (r.documentId = st.job.id))).drop (ft - 1)) := by
      rw [← hsorted2]
      exact (sortByIndex_perm _).symm
    have hperm2 := hperm1.filter fun r => decide (r.status = ChunkStatus.complete)
    have hfapp : (completeRows ((sortByIndex (st.chunks.filter fun r => decide (r.documentId = st.job.id))).take (ft - 1))
          (idealOutputs stub stub.skeleton st.job.lengthConfig st.job.numChunks
            ((sortByIndex (st.chunks.filter fun r => decide (r.documentId = st.job.id))).take (ft - 1)) [])
          ++ (sortByIndex (st.chunks.filter fun r => decide (r.documentId = st.job.id))).drop (ft - 1)).filter (fun r => decide (r.status = ChunkStatus.complete))
        = completeRows ((sortByIndex (st.chunks.filter fun r => decide (r.documentId = st.job.id))).take (ft - 1))
            (idealOutputs stub stub.skeleton st.job.lengthConfig st.job.numChunks
              ((sortByIndex (st.chunks.filter fun r => decide (r.documentId = st.job.id))).take (ft - 1)) []) := by
      rw [List.filter_append]
      have hfc : (completeRows ((sortByIndex (st.chunks.filter fun r => decide (r.documentId = st.job.id))).take (ft - 1))
            (idealOutputs stub stub.skeleton st.job.lengthConfig st.job.numChunks
              ((sortByIndex (st.chunks.filter fun r => decide (r.documentId = st.job.id))).take (ft - 1)) [])).filter (fun r => decide (r.status = ChunkStatus.complete))
          = completeRows ((sortByIndex (st.chunks.filter fun r => decide (r.documentId = st.job.id))).take (ft - 1))
              (idealOutputs stub stub.skeleton st.job.lengthConfig st.job.numChunks
                ((sortByIndex (st.chunks.filter fun r => decide (r.documentId = st.job.id))).take (ft - 1)) []) := by
        apply List.filter_eq_self.mpr
        intro r hr
        simpa using completeRows_status _ _ r hr
      have hfd : ((sortByIndex (st.chunks.filter fun r => decide (r.documentId = st.job.id))).drop (ft - 1)).filter (fun r => decide (r.status = ChunkStatus.complete))
          = [] := by
        rw [List.filter_eq_nil_iff]
        intro r hr
        have hrp := hfreshSnap r (List.mem_of_mem_drop hr)
        simp [hrp]
      rw [hfc, hfd, List.append_nil]
    rw [hfapp] at hperm2
    apply sortByIndex_eq_of_perm_strict hperm2
    have hidxc : (completeRows ((sortByIndex (st.chunks.filter fun r => decide (r.documentId = st.job.id))).take (ft - 1))
          (idealOutputs stub stub.skeleton st.job.lengthConfig st.job.numChunks
            ((sortByIndex (st.chunks.filter fun r => decide (r.documentId = st.job.id))).take (ft - 1)) [])).map (fun r => r.chunkIndex)
        = List.range (ft - 1) := by
      rw [completeRows_idx _ _ houtlen]
      exact hmt
    have hpw : ((completeRows ((sortByIndex (st.chunks.filter fun r => decide (r.documentId = st.job.id))).take (ft - 1))
          (idealOutputs stub stub.skeleton st.job.lengthConfig st.job.numChunks
            ((sortByIndex (st.chunks.filter fun r => decide (r.documentId = st.job.id))).take (ft - 1)) [])).map fun r => r.chunkIndex).Pairwise (· < ·) := by
      rw [hidxc]
      exact List.pairwise_lt_range _
    exact List.pairwise_map.mp hpw
  have hcclen : (completeRows ((sortByIndex (st.chunks.filter fun r => decide (r.documentId = st.job.id))).take (ft - 1))
      (idealOutputs stub stub.skeleton st.job.lengthConfig st.job.numChunks
        ((sortByIndex (st.chunks.filter fun r => decide (r.documentId = st.job.id))).take (ft - 1)) [])).length = ft - 1 := by
    have h := congrArg List.length ((completeRows_idx _ _ houtlen).trans hmt)
    simpa using h
  have hcctext : (completeRows ((sortByIndex (st.chunks.filter fun r => decide (r.documentId = st.job.id))).take (ft - 1))
        (idealOutputs stub stub.skeleton st.job.lengthConfig st.job.numChunks
          ((sortByIndex (st.chunks.filter fun r => decide (r.documentId = st.job.id))).take (ft - 1)) [])).map (fun c => c.chunkOutputText.getD "")
      = (idealOutputs stub stub.skeleton st.job.lengthConfig st.job.numChunks
          ((sortByIndex (st.chunks.filter fun r => decide (r.documentId = st.job.id))).take (ft - 1)) []).map Prod.fst :=
    completeRows_outputs _ _ houtlen
  have habort : handleAbort now F.1
      = (⟨{ F.1.job with status := .aborted, updatedAt := now }, F.1.chunks⟩,
         [Event.msg (.jobAborted st.job.id (ft - 1) st.job.numChunks
            (String.intercalate "\n\n"
              ((idealOutputs stub stub.skeleton st.job.lengthConfig st.job.numChunks
                ((sortByIndex (st.chunks.filter fun r => decide (r.documentId = st.job.id))).take (ft - 1)) []).map Prod.fst))
            (countWords (String.intercalate "\n\n"
              ((idealOutputs stub stub.skeleton st.job.lengthConfig st.job.numChunks
                ((sortByIndex (st.chunks.filter fun r => decide (r.documentId = st.job.id))).take (ft - 1)) []).map Prod.fst))))]) := by
    simp only [handleAbort]
    simp only [hjid2, hjn2]
    rw [hcompleted, hcclen, hcctext]
  have hstep : processJobAsync stub (fun i => decide (ft ≤ i)) now st
      = (if decide (ft ≤ 0) = true
         then ((handleAbort now st2).1,
           [Event.msg (.progress st.job.id "skeleton_extraction"), Event.llmExtractSkeleton]
             ++ (handleAbort now st2).2)
         else
           (if (processChunksLoop stub (fun i => decide (ft ≤ i)) stub.skeleton now
                (sortByIndex (st.chunks.filter fun r => decide (r.documentId = st.job.id))) st2 0 1).2.2 = true
            then ((handleAbort now (processChunksLoop stub (fun i => decide (ft ≤ i))
                stub.skeleton now (sortByIndex (st.chunks.filter fun r => decide (r.documentId = st.job.id))) st2 0 1).1).1,
              ([Event.msg (.progress st.job.id "skeleton_extraction"), Event.llmExtractSkeleton]
                ++ [Event.msg (.progress st.job.id "chunk_processing")]
                ++ (processChunksLoop stub (fun i => decide (ft ≤ i)) stub.skeleton now
                    (sortByIndex (st.chunks.filter fun r => decide (r.documentId = st.job.id))) st2 0 1).2.1)
                ++ (handleAbort now (processChunksLoop stub (fun i => decide (ft ≤ i))
                    stub.skeleton now (sortByIndex (st.chunks.filter fun r => decide (r.documentId = st.job.id))) st2 0 1).1).2)
            else
              (⟨{ (processChunksLoop stub (fun i => decide (ft ≤ i)) stub.skeleton now
                    (sortByIndex (st.chunks.filter fun r => decide (r.documentId = st.job.id))) st2 0 1).1.job with
                   finalOutput := some (stub.stitch stub.skeleton ((sortByIndex
                     ((processChunksLoop stub (fun i => decide (ft ≤ i)) stub.skeleton now
                        (sortByIndex (st.chunks.filter fun r => decide (r.documentId = st.job.id))) st2 0 1).1.chunks.filter fun c =>
                        decide (c.documentId = st.job.id
                          ∧ c.status = ChunkStatus.complete))).map fun c =>
                     (c.chunkOutputText.getD "", c.chunkDelta.getD default)))
                   finalWordCount := some (countWords (stub.stitch stub.skeleton ((sortByIndex
                     ((processChunksLoop stub (fun i => decide (ft ≤ i)) stub.skeleton now
                        (sortByIndex (st.chunks.filter fun r => decide (r.documentId = st.job.id))) st2 0 1).1.chunks.filter fun c =>
                        decide (c.documentId = st.job.id
                          ∧ c.status = ChunkStatus.complete))).map fun c =>
                     (c.chunkOutputText.getD "", c.chunkDelta.getD default))))
                   status := .complete
                   updatedAt := now },
                 (processChunksLoop stub (fun i => decide (ft ≤ i)) stub.skeleton now
                   (sortByIndex (st.chunks.filter fun r => decide (r.documentId = st.job.id))) st2 0 1).1.chunks⟩,
               ([Event.msg (.progress st.job.id "skeleton_extraction"), Event.llmExtractSkeleton]
                 ++ [Event.msg (.progress st.job.id "chunk_processing")]
                 ++ (processChunksLoop stub (fun i => decide (ft ≤ i)) stub.skeleton now
                     (sortByIndex (st.chunks.filter fun r => decide (r.documentId = st.job.id))) st2 0 1).2.1)
                 ++ [Event.msg (.progress st.job.id "stitching"),
                     Event.msg (.jobComplete st.job.id
                       (stub.stitch stub.skeleton ((sortByIndex
                         ((processChunksLoop stub (fun i => decide (ft ≤ i)) stub.skeleton now
                            (sortByIndex (st.chunks.filter fun r => decide (r.documentId = st.job.id))) st2 0 1).1.chunks.filter fun c =>
                            decide (c.documentId = st.job.id
                              ∧ c.status = ChunkStatus.complete))).map fun c =>
                         (c.chunkOutputText.getD "", c.chunkDelta.getD default)))
                       (countWords (stub.stitch stub.skeleton ((sortByIndex
                         ((processChunksLoop stub (fun i => decide (ft ≤ i)) stub.skeleton now
                            (sortByIndex (st.chunks.filter fun r => decide (r.documentId = st.job.id))) st2 0 1).1.chunks.filter fun c =>
                            decide (c.documentId = st.job.id
                              ∧ c.status = ChunkStatus.complete))).map fun c =>
                         (c.chunkOutputText.getD "", c.chunkDelta.getD default)))))]))) := rfl
  have hmain : processJobAsync stub (fun i => decide (ft ≤ i)) now st
      = ((handleAbort now F.1).1,
         ([Event.msg (.progress st.job.id "skeleton_extraction"), Event.llmExtractSkeleton]
           ++ [Event.msg (.progress st.job.id "chunk_processing")] ++ F.2.1)
           ++ (handleAbort now F.1).2) := by
    rw [hstep, hflag0eq]
    simp only [Bool.false_eq_true, if_false]
    rw [hL2]
    rfl
  subst hres
  rw [hmain]
  refine ⟨?_, ?_, ?_, ?_, ?_⟩
  · rw [habort]
  · rw [habort]
    exact hjid2
  · rw [habort]
    exact hjn2
  · rw [habort]
    exact hcompleted
  · rw [habort, hevs2]
    simp

/-- C2 counterexample: the abort flag is only read at the post-skeleton check
and before each chunk (checks 0..numChunks here: 0, 1 and 2 for the
two-chunk demo job).  A flag set during the final chunk — whose reads would
first return true at check index 3 — is never observed: the job completes
normally and no `job_aborted` message is ever broadcast, refuting "once the
flag is set, the worker reaches the aborted state within one chunk
boundary". -/
theorem claim_C2_counterexample :
    (processJobAsync demoStub (fun i => decide (3 ≤ i)) 0 freshState).1.job.status
        = JobStatus.complete
    ∧ (∀ e ∈ (processJobAsync demoStub (fun i => decide (3 ≤ i)) 0 freshState).2,
        isJobAbortedEvent e = false) := by
  decide

/-- C2 (amended): when the abort is observed at one of the per-chunk flag
checks (first true read at check `ft`, `1 ≤ ft ≤` chunk count), the job
reaches `aborted` without processing another chunk: `chunk_complete` is
broadcast exactly for the chunks before the check (indices `0..ft-2`), those
chunks are preserved as the job's complete rows, and the run closes with a
`job_aborted` broadcast carrying the completed count and the
`\n\n`-concatenation of the completed outputs.  (A flag set after the last
check is never honored — see the counterexample.) -/
theorem claim_C2_abort_window (stub : StubLLM) (now : Int) (st : JobState) (ft : Nat)
    (res : JobState × List Event)
    (hwf : JobWF st) (hfresh : JobFresh st)
    (h1 : 1 ≤ ft)
    (h2 : ft ≤ (sortByIndex (st.chunks.filter fun r => decide (r.documentId = st.job.id))).length)
    (hres : res = processJobAsync stub (fun i => decide (ft ≤ i)) now st) :
    res.1.job.status = .aborted
    ∧ res.2.filterMap eventChunkCompleteIndex = List.range (ft - 1)
    ∧ sortByIndex (res.1.chunks.filter fun c =>
          decide (c.documentId = st.job.id ∧ c.status = ChunkStatus.complete))
        = completeRows ((sortByIndex (st.chunks.filter fun r => decide (r.documentId = st.job.id))).take (ft - 1))
            (idealOutputs stub stub.skeleton st.job.lengthConfig st.job.numChunks
              ((sortByIndex (st.chunks.filter fun r => decide (r.documentId = st.job.id))).take (ft - 1)) [])
    ∧ res.2.getLast? = some (Event.msg (.jobAborted st.job.id (ft - 1) st.job.numChunks
        (String.intercalate "\n\n" ((sortByIndex (res.1.chunks.filter fun c =>
            decide (c.documentId = st.job.id ∧ c.status = ChunkStatus.complete))).map
          fun c => c.chunkOutputText.getD ""))
        (countWords (String.intercalate "\n\n" ((sortByIndex (res.1.chunks.filter fun c =>
            decide (c.documentId = st.job.id ∧ c.status = ChunkStatus.complete))).map
          fun c => c.chunkOutputText.getD ""))))) := by
  obtain ⟨hA, hB, hC, hD, hE⟩ :=
    processJobAsync_abort_spec stub now st ft res hwf hfresh h1 h2 hres
  have hmt : (((sortByIndex (st.chunks.filter fun r => decide (r.documentId = st.job.id))).take (ft - 1)).map fun r => r.chunkIndex) = List.range (ft - 1) := by
    rw [List.map_take, hwf.2, List.take_range, Nat.min_eq_left (by omega)]
  have houtlen : (idealOutputs stub stub.skeleton st.job.lengthConfig st.job.numChunks
      ((sortByIndex (st.chunks.filter fun r => decide (r.documentId = st.job.id))).take (ft - 1)) []).length = ((sortByIndex (st.chunks.filter fun r => decide (r.documentId = st.job.id))).take (ft - 1)).length :=
    idealOutputs_length _ _ _ _ _ _
  refine ⟨hA, ?_, hD, ?_⟩
  · rw [hE, List.filterMap_append, List.filterMap_append,
      idealRunEvents_chunkComplete, hmt]
    simp [eventChunkCompleteIndex]
  · rw [hD]
    have hcctext : (completeRows ((sortByIndex (st.chunks.filter fun r => decide (r.documentId = st.job.id))).take (ft - 1))
          (idealOutputs stub stub.skeleton st.job.lengthConfig st.job.numChunks
            ((sortByIndex (st.chunks.filter fun r => decide (r.documentId = st.job.id))).take (ft - 1)) [])).map (fun c => c.chunkOutputText.getD "")
        = (idealOutputs stub stub.skeleton st.job.lengthConfig st.job.numChunks
            ((sortByIndex (st.chunks.filter fun r => decide (r.documentId = st.job.id))).take (ft - 1)) []).map Prod.fst :=
      completeRows_outputs _ _ houtlen
    rw [hcctext, hE, List.append_assoc]
    rw [← List.append_assoc]
    exact List.getLast?_concat _

/-- C2 witness: the fresh two-chunk demo job with the abort observed at
check 2 (after chunk 0, before chunk 1) ends aborted. -/
theorem claim_C2_abort_window_witness :
    JobWF freshState
    ∧ (∀ c ∈ freshState.chunks, c.documentId = freshState.job.id
        → c.status = ChunkStatus.pending)
    ∧ 1 ≤ 2
    ∧ 2 ≤ (sortByIndex (freshState.chunks.filter fun r =>
        decide (r.documentId = freshState.job.id))).length
    ∧ (processJobAsync demoStub (fun i => decide (2 ≤ i)) 0 freshState).1.job.status
        = JobStatus.aborted :=
  ⟨⟨by decide, by decide⟩,
   by decide, by decide, by decide,
   (claim_C2_abort_window demoStub 0 freshState 2 _ ⟨by decide, by decide⟩
     (by exact (by decide : ∀ c ∈ freshState.chunks, c.documentId = freshState.job.id
        → c.status = ChunkStatus.pending))
     (by decide) (by decide) rfl).1⟩

end CCStream
